import Mathlib

/-!
Shallow embedding of the optimization core of the logistics-drone-simulation
repository (`src/js/services/OptimizationService.js`), together with proofs
checking the natural-language specification against it.

Modelling conventions:
* JS numbers are embedded as exact rationals (`ℚ`).  Division by zero is the
  `ℚ` convention (`x / 0 = 0`); wherever the JS float semantics could diverge
  (e.g. `Infinity` from a zero denominator), the theorems carry an explicit
  positivity hypothesis restricting attention to the inputs on which the
  embedding and the JS code agree.
* `CalculationUtils.calculateDistance` is a Euclidean distance (`Math.sqrt`),
  an irrational-valued function.  Every algorithm in the service consumes
  distances only through comparisons and sums, so all definitions are
  parametrized over an arbitrary distance function `d : DPoint → DPoint → ℚ`
  and the theorems are proved for every such `d`; concrete witnesses use the
  (exactly representable) Manhattan metric that `calculations.js` also offers.
* `Math.random()` is modelled as an injectable stream `g : ℕ → ℚ` of draws
  together with a cursor that every randomized function threads through and
  returns, mirroring the global sequential consumption of draws in JS.
  Theorems assume every draw lies in `[0, 1)`, which is the contract of
  `Math.random`.
* In-place mutation of a caller-supplied array (`Array.prototype.sort`) is
  modelled by returning the final state of that array as an extra component
  of the function's result.
-/

namespace DroneSim

open scoped List

/-- A planar point as used throughout the service.  Delivery points built in
`calculateOptimalRoute` additionally carry the originating order id
(`{...order.location, orderId: order.id}`); for plain points the field is 0. -/
structure DPoint where
  x : ℚ
  y : ℚ
  orderId : ℕ := 0
deriving DecidableEq, Repr

/-- Snapshot of an order as consumed by the optimizer: `id`, `weight`,
`location`, `priority`, `status` and the value of `getPriorityScore()`
(precomputed by the caller; the optimizer only compares scores). -/
structure Order where
  id : ℕ
  weight : ℚ
  location : DPoint
  priority : String
  priorityScore : ℚ
  status : String
deriving DecidableEq, Repr

/-- Snapshot of a drone as consumed by the optimizer. -/
structure Drone where
  id : ℕ
  capacity : ℚ
  speed : ℚ
  status : String
  batteryLevel : ℚ
  location : DPoint
deriving DecidableEq, Repr

/-- Distance functions the algorithms are parametrized over. -/
abbrev Dist := DPoint → DPoint → ℚ

/-- `CalculationUtils.calculateManhattanDistance`: the exactly representable
metric offered by `calculations.js`, used to instantiate witnesses. -/
def calculateManhattanDistance (p q : DPoint) : ℚ :=
  |q.x - p.x| + |q.y - p.y|

/-! ### Stable descending sort (`Array.prototype.sort` with comparator
`(a, b) => key(b) - key(a)`; ES2019 sort is stable and sorts in place). -/

/-- Insert `a` into a descending-sorted list, before the first element whose
key is not larger — the stable position for an element that preceded the
whole list in the original array. -/
def insertDesc (key : α → ℚ) (a : α) : List α → List α
  | [] => [a]
  | b :: l => if key b ≤ key a then a :: b :: l else b :: insertDesc key a l

/-- Stable sort by descending key. -/
def sortDesc (key : α → ℚ) : List α → List α
  | [] => []
  | a :: l => insertDesc key a (sortDesc key l)

theorem insertDesc_perm (key : α → ℚ) (a : α) (l : List α) :
    insertDesc key a l ~ a :: l := by
  induction l with
  | nil => rfl
  | cons b t ih =>
    simp only [insertDesc]
    split
    · rfl
    · exact ((ih.cons b).trans (List.Perm.swap a b t))

theorem sortDesc_perm (key : α → ℚ) (l : List α) : sortDesc key l ~ l := by
  induction l with
  | nil => rfl
  | cons a t ih => exact (insertDesc_perm key a (sortDesc key t)).trans (ih.cons a)

/-! ### Swapping two positions of a list
(`[a[i], a[j]] = [a[j], a[i]]`).  The guard returning the list unchanged when
an index is out of range is never reached under the `Math.random ∈ [0,1)`
hypothesis carried by the theorems. -/

/-- Swap the elements at positions `i` and `j`. -/
def swapL (l : List α) (i j : ℕ) : List α :=
  match l[i]?, l[j]? with
  | some a, some b => (l.set i b).set j a
  | _, _ => l

theorem getElem_cons_set_perm (a : α) (t : List α) (m : ℕ) (hm : m < t.length) :
    t[m] :: t.set m a ~ a :: t := by
  induction t generalizing m with
  | nil => simp at hm
  | cons b t' ih =>
    cases m with
    | zero => simpa using List.Perm.swap a b t'
    | succ m' =>
      have hm' : m' < t'.length := by simpa using hm
      have step : t'[m'] :: b :: t'.set m' a ~ b :: t'[m'] :: t'.set m' a :=
        List.Perm.swap b _ _
      have ihc : b :: (t'[m'] :: t'.set m' a) ~ b :: (a :: t') := (ih m' hm').cons b
      simpa using step.trans (ihc.trans (List.Perm.swap a b t'))

theorem set_set_swap_perm (l : List α) (i j : ℕ) (hi : i < l.length)
    (hj : j < l.length) : (l.set i l[j]).set j l[i] ~ l := by
  induction l generalizing i j with
  | nil => simp at hi
  | cons a t ih =>
    cases i with
    | zero =>
      cases j with
      | zero => simp
      | succ m =>
        have hm : m < t.length := by simpa using hj
        simpa using getElem_cons_set_perm a t m hm
    | succ n =>
      cases j with
      | zero =>
        have hn : n < t.length := by simpa using hi
        have h1 : t[n] :: t.set n a ~ a :: t := getElem_cons_set_perm a t n hn
        simpa using h1
      | succ m =>
        have hn : n < t.length := by simpa using hi
        have hm : m < t.length := by simpa using hj
        simpa using (ih n m hn hm).cons a

theorem swapL_perm (l : List α) (i j : ℕ) : swapL l i j ~ l := by
  unfold swapL
  cases hi : l[i]? with
  | none => rfl
  | some a =>
    cases hj : l[j]? with
    | none => rfl
    | some b =>
      have hi' : i < l.length := by
        by_contra h
        simp [List.getElem?_eq_none (by omega : l.length ≤ i)] at hi
      have hj' : j < l.length := by
        by_contra h
        simp [List.getElem?_eq_none (by omega : l.length ≤ j)] at hj
      have ha : l[i] = a := by
        have := List.getElem?_eq_getElem hi'
        rw [hi] at this; exact (Option.some.inj this).symm
      have hb : l[j] = b := by
        have := List.getElem?_eq_getElem hj'
        rw [hj] at this; exact (Option.some.inj this).symm
      subst ha hb
      exact set_set_swap_perm l i j hi' hj'

theorem swapL_length (l : List α) (i j : ℕ) : (swapL l i j).length = l.length :=
  (swapL_perm l i j).length_eq

theorem getD_cons_eraseIdx_perm (l : List α) (i : ℕ) (dflt : α) (hi : i < l.length) :
    l.getD i dflt :: l.eraseIdx i ~ l := by
  induction l generalizing i with
  | nil => simp at hi
  | cons a t ih =>
    cases i with
    | zero => simp
    | succ n =>
      have hn : n < t.length := by simpa using hi
      have step : t.getD n dflt :: a :: t.eraseIdx n ~ a :: t.getD n dflt :: t.eraseIdx n :=
        List.Perm.swap a _ _
      simpa using step.trans ((ih n hn).cons a)

/-! ### Route distance (`calculateRouteDistance`) -/

/-- Sum of consecutive pairwise distances starting from `p`. -/
def chainDist (d : Dist) : DPoint → List DPoint → ℚ
  | _, [] => 0
  | p, q :: rest => d p q + chainDist d q rest

/-- `calculateRouteDistance(route, startPoint)`: distance from `startPoint`
to the first point, along the route, and back from the last point; `0` for an
empty route. -/
def calculateRouteDistance (d : Dist) (route : List DPoint) (startPoint : DPoint) : ℚ :=
  match route with
  | [] => 0
  | p :: rest => chainDist d startPoint (p :: rest) + d ((p :: rest).getLastD startPoint) startPoint

/-! ### Nearest-neighbor route construction (`nearestNeighborRoute`)

The JS `while (unvisited.length > 0)` loop removes exactly one point per
iteration; it is embedded with `unvisited.length` as fuel, which is exactly
the number of iterations performed. -/

/-- The inner scan of `nearestNeighborRoute`: starting from a candidate
`bestIdx` with distance `bestDist`, scan the remaining points (position `i`
onwards), keeping the strictly closer point — ties keep the earliest index,
as in the JS `if (distance < nearestDistance)`. -/
def nnScan (d : Dist) (current : DPoint) : ℚ → ℕ → ℕ → List DPoint → ℕ
  | _, bestIdx, _, [] => bestIdx
  | bestDist, bestIdx, i, p :: rest =>
    if d current p < bestDist then nnScan d current (d current p) i (i + 1) rest
    else nnScan d current bestDist bestIdx (i + 1) rest

theorem nnScan_cases (d : Dist) (current : DPoint) (l : List DPoint) :
    ∀ bestDist bestIdx i, nnScan d current bestDist bestIdx i l = bestIdx ∨
      ∃ j, j < l.length ∧ nnScan d current bestDist bestIdx i l = i + j := by
  induction l with
  | nil => intro bd bi i; exact Or.inl rfl
  | cons p rest ih =>
    intro bd bi i
    simp only [nnScan]
    split
    · rcases ih (d current p) i (i + 1) with h | ⟨j, hj, h⟩
      · exact Or.inr ⟨0, by simp, by simpa using h⟩
      · exact Or.inr ⟨j + 1, by simpa using hj, by omega⟩
    · rcases ih bd bi (i + 1) with h | ⟨j, hj, h⟩
      · exact Or.inl h
      · exact Or.inr ⟨j + 1, by simpa using hj, by omega⟩

theorem nnScan_lt_length (d : Dist) (current u : DPoint) (rest : List DPoint) :
    nnScan d current (d current u) 0 1 rest < (u :: rest).length := by
  rcases nnScan_cases d current rest (d current u) 0 1 with h | ⟨j, hj, h⟩
  · simp [h]
  · simp [h]; omega

/-- The body of the `while` loop of `nearestNeighborRoute`: repeatedly move
the nearest unvisited point (ties to the first occurrence) into the route. -/
def nnLoopF (d : Dist) : ℕ → DPoint → List DPoint → List DPoint
  | 0, _, _ => []
  | _ + 1, _, [] => []
  | fuel + 1, current, u :: rest =>
    let idx := nnScan d current (d current u) 0 1 rest
    let p := (u :: rest).getD idx u
    p :: nnLoopF d fuel p ((u :: rest).eraseIdx idx)

/-- `nearestNeighborRoute(points, startPoint)`. -/
def nearestNeighborRoute (d : Dist) (points : List DPoint) (startPoint : DPoint) :
    List DPoint :=
  if points.isEmpty then [startPoint]
  else startPoint :: (nnLoopF d points.length startPoint points ++ [startPoint])

theorem nnLoopF_perm (d : Dist) :
    ∀ (fuel : ℕ) (current : DPoint) (l : List DPoint), l.length ≤ fuel →
      nnLoopF d fuel current l ~ l := by
  intro fuel
  induction fuel with
  | zero =>
    intro current l hl
    have : l = [] := List.length_eq_zero.mp (Nat.le_zero.mp hl)
    subst this; rfl
  | succ n ih =>
    intro current l hl
    match l with
    | [] => rfl
    | u :: rest =>
      have hidx : nnScan d current (d current u) 0 1 rest < (u :: rest).length :=
        nnScan_lt_length d current u rest
      have herase : ((u :: rest).eraseIdx (nnScan d current (d current u) 0 1 rest)).length ≤ n := by
        rw [List.length_eraseIdx_of_lt hidx]
        simpa using Nat.le_of_succ_le_succ hl
      have hrec := ih ((u :: rest).getD (nnScan d current (d current u) 0 1 rest) u)
        ((u :: rest).eraseIdx (nnScan d current (d current u) 0 1 rest)) herase
      calc nnLoopF d (n + 1) current (u :: rest)
          ~ (u :: rest).getD (nnScan d current (d current u) 0 1 rest) u ::
              (u :: rest).eraseIdx (nnScan d current (d current u) 0 1 rest) :=
            hrec.cons ((u :: rest).getD (nnScan d current (d current u) 0 1 rest) u)
        _ ~ u :: rest := getD_cons_eraseIdx_perm _ _ _ hidx

/-- **C4.** For every distance function and non-empty point list, the
nearest-neighbor route is the origin, followed by a permutation of the input
points (built greedily, nearest-first with ties to the first occurrence — the
definition of `nnScan`/`nnLoopF`), followed by the origin again, of total
length `n + 2`; for the empty input it is exactly `[origin]`. -/
theorem nearestNeighborRoute_spec (d : Dist) (points : List DPoint) (startPoint : DPoint) :
    (points = [] → nearestNeighborRoute d points startPoint = [startPoint]) ∧
    (points ≠ [] → ∃ mid, nearestNeighborRoute d points startPoint =
        startPoint :: (mid ++ [startPoint]) ∧ mid ~ points ∧
        (nearestNeighborRoute d points startPoint).length = points.length + 2) := by
  constructor
  · intro h; subst h; rfl
  · intro h
    refine ⟨nnLoopF d points.length startPoint points, ?_, ?_, ?_⟩
    · simp [nearestNeighborRoute, List.isEmpty_iff, h]
    · exact nnLoopF_perm d points.length startPoint points le_rfl
    · have hp := nnLoopF_perm d points.length startPoint points le_rfl
      simp [nearestNeighborRoute, List.isEmpty_iff, h, hp.length_eq]

/-- Witness for C4 at a concrete input: the end-to-end scenario points
`(10,10), (20,20), (30,30)` with origin `(0,0)` under the Manhattan metric. -/
theorem nearestNeighborRoute_spec_witness :
    ([⟨10, 10, 0⟩, ⟨20, 20, 0⟩, ⟨30, 30, 0⟩] : List DPoint) ≠ [] ∧
    (∃ mid, nearestNeighborRoute calculateManhattanDistance
        [⟨10, 10, 0⟩, ⟨20, 20, 0⟩, ⟨30, 30, 0⟩] ⟨0, 0, 0⟩ =
        ⟨0, 0, 0⟩ :: (mid ++ [⟨0, 0, 0⟩]) ∧
        mid ~ [⟨10, 10, 0⟩, ⟨20, 20, 0⟩, ⟨30, 30, 0⟩] ∧
        (nearestNeighborRoute calculateManhattanDistance
          [⟨10, 10, 0⟩, ⟨20, 20, 0⟩, ⟨30, 30, 0⟩] ⟨0, 0, 0⟩).length = 3 + 2) :=
  ⟨by decide, (nearestNeighborRoute_spec calculateManhattanDistance
      [⟨10, 10, 0⟩, ⟨20, 20, 0⟩, ⟨30, 30, 0⟩] ⟨0, 0, 0⟩).2 (by decide)⟩

/-! ### Task grouping (`groupOrdersForOptimalDelivery`) -/

/-- Total weight of a group (`group.reduce((sum, o) => sum + o.weight, 0)`). -/
def weightSum (g : List Order) : ℚ := (g.map Order.weight).sum

/-- `calculateGroupDistance(orders)`: 0 for at most one order, otherwise the
sum of consecutive pairwise distances. -/
def calculateGroupDistance (d : Dist) (orders : List Order) : ℚ :=
  match orders with
  | [] => 0
  | [_] => 0
  | o :: rest => chainDist d o.location (rest.map Order.location)

/-- `Math.max(...drones.map(d => d.capacity))`.  For an empty drone list JS
yields `-Infinity`; the embedding returns 0 and every theorem touching the
ceiling assumes a non-empty drone list (with positive task weights both
values make every capacity test fail, so the algorithms behave alike). -/
def maxCapacity (drones : List Drone) : ℚ :=
  match drones with
  | [] => 0
  | dr :: rest => (rest.map Drone.capacity).foldl max dr.capacity

/-- The inner `for (const group of groups)` search: append the order to the
first group satisfying both the capacity ceiling and the 50-unit chain
proximity bound; `none` when no group accepts it. -/
def tryInsert (d : Dist) (maxCap : ℚ) (o : Order) :
    List (List Order) → Option (List (List Order))
  | [] => none
  | g :: gs =>
    if weightSum g + o.weight ≤ maxCap ∧ calculateGroupDistance d (g ++ [o]) ≤ 50 then
      some ((g ++ [o]) :: gs)
    else
      match tryInsert d maxCap o gs with
      | some gs' => some (g :: gs')
      | none => none

/-- One iteration of the outer `for (const order of sortedOrders)` loop:
first-fit, else open a new singleton group at the end. -/
def groupStep (d : Dist) (maxCap : ℚ) (groups : List (List Order)) (o : Order) :
    List (List Order) :=
  match tryInsert d maxCap o groups with
  | some gs => gs
  | none => groups ++ [[o]]

/-- `groupOrdersForOptimalDelivery(orders, drones)`.  `orders.sort(...)`
sorts the caller's array in place (stable, descending priority score); the
second component of the result is the post-call state of that array. -/
def groupOrdersForOptimalDelivery (d : Dist) (orders : List Order) (drones : List Drone) :
    List (List Order) × List Order :=
  let sortedOrders := sortDesc Order.priorityScore orders
  let maxCap := maxCapacity drones
  (sortedOrders.foldl (groupStep d maxCap) [], sortedOrders)

theorem tryInsert_join_perm (d : Dist) (c : ℚ) (o : Order) :
    ∀ (gs gs' : List (List Order)), tryInsert d c o gs = some gs' →
      gs'.flatten ~ o :: gs.flatten := by
  intro gs
  induction gs with
  | nil => intro gs' h; simp [tryInsert] at h
  | cons g rest ih =>
    intro gs' h
    simp only [tryInsert] at h
    split at h
    · cases h
      simp only [List.flatten_cons, List.append_assoc, List.singleton_append]
      exact (List.perm_middle : g ++ o :: rest.flatten ~ o :: (g ++ rest.flatten))
    · revert h
      cases hrec : tryInsert d c o rest with
      | none => intro h; cases h
      | some rest' =>
        intro h
        cases h
        have := (ih rest' hrec).append_left g
        simpa using this.trans
          (List.perm_middle : g ++ o :: rest.flatten ~ o :: (g ++ rest.flatten))

theorem groupStep_join_perm (d : Dist) (c : ℚ) (groups : List (List Order)) (o : Order) :
    (groupStep d c groups o).flatten ~ o :: groups.flatten := by
  unfold groupStep
  cases h : tryInsert d c o groups with
  | some gs => exact tryInsert_join_perm d c o groups gs h
  | none =>
    simp [(List.perm_middle : groups.flatten ++ o :: [] ~ o :: (groups.flatten ++ []))]

theorem foldl_groupStep_join_perm (d : Dist) (c : ℚ) :
    ∀ (l : List Order) (gs : List (List Order)),
      (l.foldl (groupStep d c) gs).flatten ~ gs.flatten ++ l := by
  intro l
  induction l with
  | nil => intro gs; simp
  | cons o rest ih =>
    intro gs
    have h1 := ih (groupStep d c gs o)
    have h2 := (groupStep_join_perm d c gs o).append_right rest
    calc ((o :: rest).foldl (groupStep d c) gs).flatten
        ~ (groupStep d c gs o).flatten ++ rest := h1
      _ ~ (o :: gs.flatten) ++ rest := h2
      _ ~ gs.flatten ++ o :: rest := List.perm_middle.symm

/-- Group-shape invariant: every group either respects the ceiling or is a
singleton (opened for an order no existing group could take). -/
def GroupsOk (c : ℚ) (gs : List (List Order)) : Prop :=
  ∀ g ∈ gs, weightSum g ≤ c ∨ ∃ o : Order, g = [o]

theorem tryInsert_groupsOk (d : Dist) (c : ℚ) (o : Order) :
    ∀ (gs gs' : List (List Order)), tryInsert d c o gs = some gs' →
      GroupsOk c gs → GroupsOk c gs' := by
  intro gs
  induction gs with
  | nil => intro gs' h; simp [tryInsert] at h
  | cons g rest ih =>
    intro gs' h hok
    simp only [tryInsert] at h
    split at h
    · cases h
      intro g' hg'
      rcases List.mem_cons.mp hg' with rfl | hmem
      · left
        have : weightSum (g ++ [o]) = weightSum g + o.weight := by
          simp [weightSum]
        rename_i hcond
        rw [this]; exact hcond.1
      · exact hok g' (List.mem_cons_of_mem g hmem)
    · revert h
      cases hrec : tryInsert d c o rest with
      | none => intro h; cases h
      | some rest' =>
        intro h
        cases h
        intro g' hg'
        rcases List.mem_cons.mp hg' with rfl | hmem
        · exact hok g' (List.mem_cons_self g' rest)
        · exact ih rest' hrec (fun x hx => hok x (List.mem_cons_of_mem g hx)) g' hmem

theorem groupStep_groupsOk (d : Dist) (c : ℚ) (groups : List (List Order)) (o : Order)
    (hok : GroupsOk c groups) : GroupsOk c (groupStep d c groups o) := by
  unfold groupStep
  cases h : tryInsert d c o groups with
  | some gs => exact tryInsert_groupsOk d c o groups gs h hok
  | none =>
    intro g hg
    rcases List.mem_append.mp hg with hmem | hmem
    · exact hok g hmem
    · right; exact ⟨o, by simpa using hmem⟩

theorem foldl_groupStep_groupsOk (d : Dist) (c : ℚ) :
    ∀ (l : List Order) (gs : List (List Order)), GroupsOk c gs →
      GroupsOk c (l.foldl (groupStep d c) gs) := by
  intro l
  induction l with
  | nil => intro gs h; exact h
  | cons o rest ih => intro gs h; exact ih _ (groupStep_groupsOk d c gs o h)

/-- Ceiling invariant: every group respects the capacity ceiling. -/
def GroupsLe (c : ℚ) (gs : List (List Order)) : Prop :=
  ∀ g ∈ gs, weightSum g ≤ c

theorem tryInsert_groupsLe (d : Dist) (c : ℚ) (o : Order) :
    ∀ (gs gs' : List (List Order)), tryInsert d c o gs = some gs' →
      GroupsLe c gs → GroupsLe c gs' := by
  intro gs
  induction gs with
  | nil => intro gs' h; simp [tryInsert] at h
  | cons g rest ih =>
    intro gs' h hok
    simp only [tryInsert] at h
    split at h
    · cases h
      intro g' hg'
      rcases List.mem_cons.mp hg' with rfl | hmem
      · have : weightSum (g ++ [o]) = weightSum g + o.weight := by simp [weightSum]
        rename_i hcond
        rw [this]; exact hcond.1
      · exact hok g' (List.mem_cons_of_mem g hmem)
    · revert h
      cases hrec : tryInsert d c o rest with
      | none => intro h; cases h
      | some rest' =>
        intro h
        cases h
        intro g' hg'
        rcases List.mem_cons.mp hg' with rfl | hmem
        · exact hok g' (List.mem_cons_self g' rest)
        · exact ih rest' hrec (fun x hx => hok x (List.mem_cons_of_mem g hx)) g' hmem

theorem groupStep_groupsLe (d : Dist) (c : ℚ) (groups : List (List Order)) (o : Order)
    (hw : o.weight ≤ c) (hok : GroupsLe c groups) : GroupsLe c (groupStep d c groups o) := by
  unfold groupStep
  cases h : tryInsert d c o groups with
  | some gs => exact tryInsert_groupsLe d c o groups gs h hok
  | none =>
    intro g hg
    rcases List.mem_append.mp hg with hmem | hmem
    · exact hok g hmem
    · have : g = [o] := by simpa using hmem
      subst this
      simpa [weightSum] using hw

theorem foldl_groupStep_groupsLe (d : Dist) (c : ℚ) :
    ∀ (l : List Order) (gs : List (List Order)), (∀ o ∈ l, o.weight ≤ c) →
      GroupsLe c gs → GroupsLe c (l.foldl (groupStep d c) gs) := by
  intro l
  induction l with
  | nil => intro gs _ h; exact h
  | cons o rest ih =>
    intro gs hw h
    exact ih _ (fun x hx => hw x (List.mem_cons_of_mem o hx))
      (groupStep_groupsLe d c gs o (hw o (List.mem_cons_self o rest)) h)

/-- **C5 (amended).**  For every distance function, task list and non-empty
unit list, the groups built by `groupOrdersForOptimalDelivery` partition the
input tasks (their concatenation is a permutation of the input, so the group
sizes sum to the input count and every task lies in exactly one group); every
group either respects the capacity ceiling `max(capacity)` or is a singleton,
and when every single task weight already fits under the ceiling, no group
whatsoever exceeds it.  (The unamended claim — no group ever exceeds the
ceiling — fails on a lone overweight task, see the counterexample.) -/
theorem groupOrdersForOptimalDelivery_spec (d : Dist) (orders : List Order)
    (drones : List Drone) (_hdr : drones ≠ []) :
    ((groupOrdersForOptimalDelivery d orders drones).1.flatten ~ orders) ∧
    (((groupOrdersForOptimalDelivery d orders drones).1.map List.length).sum =
      orders.length) ∧
    (∀ g ∈ (groupOrdersForOptimalDelivery d orders drones).1,
      weightSum g ≤ maxCapacity drones ∨ ∃ o : Order, g = [o]) ∧
    ((∀ o ∈ orders, o.weight ≤ maxCapacity drones) →
      ∀ g ∈ (groupOrdersForOptimalDelivery d orders drones).1,
        weightSum g ≤ maxCapacity drones) := by
  have hperm : (groupOrdersForOptimalDelivery d orders drones).1.flatten ~ orders := by
    have h1 := foldl_groupStep_join_perm d (maxCapacity drones)
      (sortDesc Order.priorityScore orders) []
    have h2 := sortDesc_perm Order.priorityScore orders
    simpa [groupOrdersForOptimalDelivery] using h1.trans h2
  refine ⟨hperm, ?_, ?_, ?_⟩
  · have := hperm.length_eq
    simpa [List.length_flatten] using this
  · exact foldl_groupStep_groupsOk d (maxCapacity drones) _ [] (by simp [GroupsOk])
  · intro hw
    refine foldl_groupStep_groupsLe d (maxCapacity drones) _ [] ?_ (by simp [GroupsLe])
    intro o ho
    exact hw o ((sortDesc_perm Order.priorityScore orders).mem_iff.mp ho)

/-- Witness for C5 at the mock inputs of the repository's test-suite
(three orders, drones of capacity 10 and 8). -/
theorem groupOrdersForOptimalDelivery_spec_witness :
    ([⟨1, 10, 60, "idle", 100, ⟨0, 0, 0⟩⟩, ⟨2, 8, 65, "idle", 80, ⟨5, 5, 0⟩⟩]
        ≠ ([] : List Drone)) ∧
    ((groupOrdersForOptimalDelivery calculateManhattanDistance
        [⟨1, 3, ⟨10, 15, 0⟩, "alta", 120, "pending"⟩,
         ⟨2, 4, ⟨25, 30, 0⟩, "media", 80, "pending"⟩,
         ⟨3, 2, ⟨12, 18, 0⟩, "baixa", 40, "pending"⟩]
        [⟨1, 10, 60, "idle", 100, ⟨0, 0, 0⟩⟩,
         ⟨2, 8, 65, "idle", 80, ⟨5, 5, 0⟩⟩]).1.flatten ~
      [⟨1, 3, ⟨10, 15, 0⟩, "alta", 120, "pending"⟩,
       ⟨2, 4, ⟨25, 30, 0⟩, "media", 80, "pending"⟩,
       ⟨3, 2, ⟨12, 18, 0⟩, "baixa", 40, "pending"⟩]) := by
  constructor
  · decide
  · exact (groupOrdersForOptimalDelivery_spec calculateManhattanDistance
      [⟨1, 3, ⟨10, 15, 0⟩, "alta", 120, "pending"⟩,
       ⟨2, 4, ⟨25, 30, 0⟩, "media", 80, "pending"⟩,
       ⟨3, 2, ⟨12, 18, 0⟩, "baixa", 40, "pending"⟩]
      [⟨1, 10, 60, "idle", 100, ⟨0, 0, 0⟩⟩, ⟨2, 8, 65, "idle", 80, ⟨5, 5, 0⟩⟩]
      (by decide)).1

/-- **C5 counterexample.**  A lone task of weight 100 with a single unit of
capacity 10: the task opens a singleton group whose total weight 100 exceeds
the capacity ceiling 10, refuting "no group's total weight exceeds the
supplied capacity ceiling" as universally stated. -/
theorem groupOrders_capacity_cex :
    (groupOrdersForOptimalDelivery calculateManhattanDistance
        [⟨1, 100, ⟨0, 0, 0⟩, "alta", 50, "pending"⟩]
        [⟨1, 10, 60, "idle", 100, ⟨0, 0, 0⟩⟩]).1 =
      [[⟨1, 100, ⟨0, 0, 0⟩, "alta", 50, "pending"⟩]] ∧
    maxCapacity [⟨1, 10, 60, "idle", 100, ⟨0, 0, 0⟩⟩] <
      weightSum [⟨1, 100, ⟨0, 0, 0⟩, "alta", 50, "pending"⟩] := by
  constructor
  · rfl
  · norm_num [maxCapacity, weightSum]

/-! ### Group-to-drone assignment (`assignOrderGroupsToDrones`) -/

/-- `calculateCenterLocation(orders)`: arithmetic mean of member locations. -/
def calculateCenterLocation (orders : List Order) : DPoint :=
  ⟨(orders.map (fun o => o.location.x)).sum / orders.length,
   (orders.map (fun o => o.location.y)).sum / orders.length, 0⟩

/-- The §4.5 scoring formula
`(1/(distance+1))·0.4 + capacityUtilization·0.3 + batteryScore·0.3`.
The JS literals 0.4/0.3 are doubles; they are embedded as the exact rationals
they denote in the source text.  No theorem below depends on score values,
only on the shape of the best-drone search. -/
def droneScore (d : Dist) (totalWeight : ℚ) (center : DPoint) (dr : Drone) : ℚ :=
  (1 / (d dr.location center + 1)) * (2 / 5) + (totalWeight / dr.capacity) * (3 / 10) +
    (dr.batteryLevel / 100) * (3 / 10)

/-- One step of the `for (const drone of availableDrones)` search in
`findBestDroneForGroup`: skip drones below the group weight, otherwise keep
the strictly higher score (`score > bestScore`, initial best score −1). -/
def fbStep (d : Dist) (totalWeight : ℚ) (center : DPoint)
    (best : Option Drone × ℚ) (dr : Drone) : Option Drone × ℚ :=
  if dr.capacity < totalWeight then best
  else if best.2 < droneScore d totalWeight center dr then
    (some dr, droneScore d totalWeight center dr)
  else best

/-- `findBestDroneForGroup(orderGroup, availableDrones)` — `some` best drone
or `none` when no drone has sufficient capacity. -/
def findBestDroneForGroup (d : Dist) (orderGroup : List Order)
    (availableDrones : List Drone) : Option Drone :=
  (availableDrones.foldl
    (fbStep d (weightSum orderGroup) (calculateCenterLocation orderGroup))
    (none, -1)).1

theorem fbStep_foldl_sound (d : Dist) (tw : ℚ) (center : DPoint) (l₀ : List Drone) :
    ∀ (l : List Drone) (acc : Option Drone × ℚ), (∀ x ∈ l, x ∈ l₀) →
      (∀ dr, acc.1 = some dr → dr ∈ l₀ ∧ tw ≤ dr.capacity) →
      ∀ dr, (l.foldl (fbStep d tw center) acc).1 = some dr →
        dr ∈ l₀ ∧ tw ≤ dr.capacity := by
  intro l
  induction l with
  | nil => intro acc _ hacc dr h; exact hacc dr h
  | cons x t ih =>
    intro acc hsub hacc dr h
    refine ih (fbStep d tw center acc x) (fun y hy => hsub y (List.mem_cons_of_mem x hy))
      ?_ dr h
    intro dr' hdr'
    unfold fbStep at hdr'
    split at hdr'
    · exact hacc dr' hdr'
    · split at hdr'
      · rename_i hcap _
        cases hdr'
        exact ⟨hsub x (List.mem_cons_self x t), le_of_not_lt hcap⟩
      · exact hacc dr' hdr'

theorem findBestDroneForGroup_sound (d : Dist) (g : List Order) (avail : List Drone)
    (dr : Drone) (h : findBestDroneForGroup d g avail = some dr) :
    dr ∈ avail ∧ weightSum g ≤ dr.capacity := by
  exact fbStep_foldl_sound d (weightSum g) (calculateCenterLocation g) avail avail
    (none, -1) (fun x hx => hx) (by intro dr' h'; cases h') dr h

/-- An assignment record `{drone, orders}` as pushed by
`assignOrderGroupsToDrones`. -/
structure Assignment where
  drone : Drone
  orders : List Order
deriving DecidableEq, Repr

/-- Mean member priority score, the sort key of `assignOrderGroupsToDrones`. -/
def avgPriority (g : List Order) : ℚ := (g.map Order.priorityScore).sum / g.length

/-- The `for (const group of sortedGroups)` loop.  `used` is the
`usedDrones` id set; a group with no eligible unused drone contributes
nothing to the output. -/
def assignGo (d : Dist) (drones : List Drone) :
    List (List Order) → List ℕ → List Assignment
  | [], _ => []
  | g :: gs, used =>
    match findBestDroneForGroup d g (drones.filter (fun dr => dr.id ∉ used)) with
    | some dr => ⟨dr, g⟩ :: assignGo d drones gs (dr.id :: used)
    | none => assignGo d drones gs used

/-- `assignOrderGroupsToDrones(orderGroups, drones)`.  The in-place
`orderGroups.sort(...)` (stable, by descending mean priority) is reflected in
the second component: the post-call state of the caller's group array. -/
def assignOrderGroupsToDrones (d : Dist) (orderGroups : List (List Order))
    (drones : List Drone) : List Assignment × List (List Order) :=
  let sortedGroups := sortDesc avgPriority orderGroups
  (assignGo d drones sortedGroups [], sortedGroups)

theorem assignGo_sound (d : Dist) (drones : List Drone) :
    ∀ (gs : List (List Order)) (used : List ℕ) (a : Assignment),
      a ∈ assignGo d drones gs used →
      a.drone ∈ drones ∧ weightSum a.orders ≤ a.drone.capacity ∧ a.drone.id ∉ used := by
  intro gs
  induction gs with
  | nil => intro used a h; simp [assignGo] at h
  | cons g rest ih =>
    intro used a h
    simp only [assignGo] at h
    revert h
    cases hfb : findBestDroneForGroup d g (drones.filter (fun dr => dr.id ∉ used)) with
    | none => intro h; exact ih used a h
    | some dr =>
      intro h
      rcases List.mem_cons.mp h with rfl | hmem
      · obtain ⟨hmemf, hcap⟩ := findBestDroneForGroup_sound d g _ dr hfb
        have := List.mem_filter.mp hmemf
        refine ⟨this.1, hcap, ?_⟩
        simpa using this.2
      · obtain ⟨h1, h2, h3⟩ := ih (dr.id :: used) a hmem
        exact ⟨h1, h2, fun hc => h3 (List.mem_cons_of_mem _ hc)⟩

theorem assignGo_ids_nodup (d : Dist) (drones : List Drone) :
    ∀ (gs : List (List Order)) (used : List ℕ),
      ((assignGo d drones gs used).map (fun a => a.drone.id)).Nodup := by
  intro gs
  induction gs with
  | nil => intro used; simp [assignGo]
  | cons g rest ih =>
    intro used
    simp only [assignGo]
    cases hfb : findBestDroneForGroup d g (drones.filter (fun dr => dr.id ∉ used)) with
    | none => exact ih used
    | some dr =>
      refine List.Nodup.cons ?_ (ih (dr.id :: used))
      intro hmem
      simp only [List.mem_map] at hmem
      obtain ⟨a, ha, hid⟩ := hmem
      have := (assignGo_sound d drones rest (dr.id :: used) a ha).2.2
      exact this (hid ▸ List.mem_cons_self dr.id used)

theorem assignGo_orders_sublist (d : Dist) (drones : List Drone) :
    ∀ (gs : List (List Order)) (used : List ℕ),
      ((assignGo d drones gs used).map Assignment.orders) <+ gs := by
  intro gs
  induction gs with
  | nil => intro used; simp [assignGo]
  | cons g rest ih =>
    intro used
    simp only [assignGo]
    cases findBestDroneForGroup d g (drones.filter (fun dr => dr.id ∉ used)) with
    | none => exact (ih used).cons g
    | some dr => exact (ih (dr.id :: used)).cons₂ g

/-- **C1 (amended).**  In one assignment pass: the groups that receive a unit
form a sublist of the (sorted) group list, so every group receives at most
one unit; every produced assignment pairs an input group with a unit from the
input pool of sufficient capacity; and no unit appears in two assignments.
Groups with no eligible unused unit are silently dropped — the function
returns only the assignment list, with no unmatched-group list (see the
counterexample). -/
theorem assignOrderGroupsToDrones_amended (d : Dist)
    (orderGroups : List (List Order)) (drones : List Drone) :
    (((assignOrderGroupsToDrones d orderGroups drones).1.map Assignment.orders) <+
      (assignOrderGroupsToDrones d orderGroups drones).2) ∧
    (∀ a ∈ (assignOrderGroupsToDrones d orderGroups drones).1,
      a.orders ∈ orderGroups) ∧
    (((assignOrderGroupsToDrones d orderGroups drones).1.map
      (fun a => a.drone.id)).Nodup) ∧
    (∀ a ∈ (assignOrderGroupsToDrones d orderGroups drones).1,
      a.drone ∈ drones ∧ weightSum a.orders ≤ a.drone.capacity) := by
  refine ⟨assignGo_orders_sublist d drones _ [], ?_, assignGo_ids_nodup d drones _ [], ?_⟩
  · intro a ha
    have hmem : a.orders ∈ (assignGo d drones (sortDesc avgPriority orderGroups) []).map
        Assignment.orders := List.mem_map_of_mem Assignment.orders ha
    have hsub := (assignGo_orders_sublist d drones (sortDesc avgPriority orderGroups) []).subset
    exact (sortDesc_perm avgPriority orderGroups).mem_iff.mp (hsub hmem)
  · intro a ha
    have := assignGo_sound d drones (sortDesc avgPriority orderGroups) [] a ha
    exact ⟨this.1, this.2.1⟩

/-- **C1 counterexample.**  One group (a single order of weight 100) and one
unit of capacity 10: `assignOrderGroupsToDrones` returns the empty assignment
list, and nothing else — the group receives no unit and appears in no
returned unmatched-group list, because the function's only output is the
assignment list.  This refutes "every group either gets exactly one unit or
appears in the unmatched list / no group is silently dropped". -/
theorem assignOrderGroupsToDrones_cex :
    (assignOrderGroupsToDrones calculateManhattanDistance
        [[⟨1, 100, ⟨0, 0, 0⟩, "alta", 50, "pending"⟩]]
        [⟨1, 10, 60, "idle", 100, ⟨0, 0, 0⟩⟩]).1 = [] := by
  norm_num [assignOrderGroupsToDrones, sortDesc, insertDesc, assignGo,
    findBestDroneForGroup, fbStep, weightSum, List.filter]

/-- **C8 (amended).**  An optimization pass never modifies a field of any
task or unit snapshot and loses no element — but both
`groupOrdersForOptimalDelivery` and `assignOrderGroupsToDrones` sort their
caller-supplied array in place, so after the call the order array (resp. the
group array) holds the same elements reordered: the post-call array state is
a permutation of the input, not necessarily the input itself (see the
counterexample). -/
theorem optimization_pass_mutation_amended (d : Dist) (orders : List Order)
    (drones : List Drone) (orderGroups : List (List Order)) :
    ((groupOrdersForOptimalDelivery d orders drones).2 ~ orders) ∧
    ((assignOrderGroupsToDrones d orderGroups drones).2 ~ orderGroups) :=
  ⟨sortDesc_perm Order.priorityScore orders, sortDesc_perm avgPriority orderGroups⟩

/-- **C8 counterexample.**  Two pending orders supplied in ascending priority
order: after `groupOrdersForOptimalDelivery` returns, the caller's order
array has been reordered in place (descending priority score), so it is not
"the same elements in the same order as before the call". -/
theorem groupOrders_mutates_input_cex :
    (groupOrdersForOptimalDelivery calculateManhattanDistance
        [⟨1, 1, ⟨0, 0, 0⟩, "baixa", 10, "pending"⟩,
         ⟨2, 1, ⟨1, 0, 0⟩, "alta", 120, "pending"⟩]
        [⟨1, 10, 60, "idle", 100, ⟨0, 0, 0⟩⟩]).2 ≠
      [⟨1, 1, ⟨0, 0, 0⟩, "baixa", 10, "pending"⟩,
       ⟨2, 1, ⟨1, 0, 0⟩, "alta", 120, "pending"⟩] := by
  decide

/-! ### Fleet sizing (`optimizeFleetAllocation`) -/

/-- The `constraints` parameter with its JS default values. -/
structure FleetConstraints where
  maxDrones : ℚ := 10
  droneCapacity : ℚ := 10
  droneRange : ℚ := 50
  operatingHours : ℚ := 12
deriving DecidableEq, Repr

/-- The per-priority-class `requiredDrones` breakdown. -/
structure FleetAllocation where
  alta : ℤ
  media : ℤ
  baixa : ℤ
deriving DecidableEq, Repr

/-- The fleet-sizing result (`recommendation` + `analysis` flattened). -/
structure FleetResult where
  totalDrones : ℚ
  allocation : FleetAllocation
  utilizationRate : ℚ
  currentOrders : ℕ
  estimatedCapacity : ℚ
  bottleneck : Option String
deriving DecidableEq, Repr

/-- `optimizeFleetAllocation(orders, constraints)`: a pure aggregate over the
priority-class counts.  `averageDeliveryTime` is the hard-coded 45 minutes. -/
def optimizeFleetAllocation (orders : List Order) (c : FleetConstraints) : FleetResult :=
  let countAlta : ℕ := (orders.filter (fun o => o.priority = "alta")).length
  let countMedia : ℕ := (orders.filter (fun o => o.priority = "media")).length
  let countBaixa : ℕ := (orders.filter (fun o => o.priority = "baixa")).length
  let averageDeliveryTime : ℚ := 45
  let deliveriesPerDronePerHour : ℚ := 60 / averageDeliveryTime
  let deliveriesPerDronePerDay : ℚ := deliveriesPerDronePerHour * c.operatingHours
  let reqAlta : ℤ := ⌈(countAlta : ℚ) / deliveriesPerDronePerDay⌉
  let reqMedia : ℤ := ⌈(countMedia : ℚ) / deliveriesPerDronePerDay⌉
  let reqBaixa : ℤ := ⌈(countBaixa : ℚ) / deliveriesPerDronePerDay⌉
  let totalRequired : ℤ := reqAlta + reqMedia + reqBaixa
  { totalDrones := min (totalRequired : ℚ) c.maxDrones
    allocation := ⟨reqAlta, reqMedia, reqBaixa⟩
    utilizationRate := min 100 ((totalRequired : ℚ) / c.maxDrones * 100)
    currentOrders := orders.length
    estimatedCapacity := deliveriesPerDronePerDay * c.maxDrones
    bottleneck := if c.maxDrones < (totalRequired : ℚ) then some "fleet_size" else none }

/-- The throughput and total demand of §4.6, written as the spec states them:
`throughputPerUnitPerDay = operatingHours·60 / averageServiceTime` with the
45-minute service time, and `totalRequired = Σ ceil(classCount/throughput)`. -/
def specTotalRequired (orders : List Order) (c : FleetConstraints) : ℤ :=
  let throughput : ℚ := c.operatingHours * 60 / 45
  ⌈((orders.filter (fun o => o.priority = "alta")).length : ℚ) / throughput⌉ +
  ⌈((orders.filter (fun o => o.priority = "media")).length : ℚ) / throughput⌉ +
  ⌈((orders.filter (fun o => o.priority = "baixa")).length : ℚ) / throughput⌉

/-- **C6.**  Fleet sizing returns `recommendedTotal = min(totalRequired,
maxUnits)` with `totalRequired` the sum of per-class `ceil(classCount /
throughputPerUnitPerDay)`; the recommendation never exceeds `maxUnits`; the
utilization ratio is `min(100, totalRequired/maxUnits·100)`; and the
bottleneck flag is set exactly when `totalRequired > maxUnits`.  The
positivity hypotheses restrict to inputs where the exact-rational embedding
agrees with the JS float semantics (no `Infinity` from a zero divisor). -/
theorem optimizeFleetAllocation_spec (orders : List Order) (c : FleetConstraints)
    (_hH : 0 < c.operatingHours) (_hM : 0 < c.maxDrones) :
    (optimizeFleetAllocation orders c).totalDrones =
      min ((specTotalRequired orders c : ℚ)) c.maxDrones ∧
    (optimizeFleetAllocation orders c).totalDrones ≤ c.maxDrones ∧
    (optimizeFleetAllocation orders c).utilizationRate =
      min 100 ((specTotalRequired orders c : ℚ) / c.maxDrones * 100) ∧
    ((optimizeFleetAllocation orders c).bottleneck = some "fleet_size" ↔
      c.maxDrones < (specTotalRequired orders c : ℚ)) := by
  have hthr : (60 : ℚ) / 45 * c.operatingHours = c.operatingHours * 60 / 45 := by ring
  have hreq : ∀ n : ℕ, ⌈(n : ℚ) / ((60 : ℚ) / 45 * c.operatingHours)⌉ =
      ⌈(n : ℚ) / (c.operatingHours * 60 / 45)⌉ := by
    intro n; rw [hthr]
  have htot : (⌈((orders.filter (fun o => o.priority = "alta")).length : ℚ) /
        ((60 : ℚ) / 45 * c.operatingHours)⌉ +
      ⌈((orders.filter (fun o => o.priority = "media")).length : ℚ) /
        ((60 : ℚ) / 45 * c.operatingHours)⌉ +
      ⌈((orders.filter (fun o => o.priority = "baixa")).length : ℚ) /
        ((60 : ℚ) / 45 * c.operatingHours)⌉) = specTotalRequired orders c := by
    rw [hreq, hreq, hreq]; rfl
  refine ⟨?_, ?_, ?_, ?_⟩
  · simp only [optimizeFleetAllocation, htot]
  · exact min_le_right _ _
  · simp only [optimizeFleetAllocation, htot]
  · simp only [optimizeFleetAllocation, htot]
    split
    · rename_i h; simpa using h
    · rename_i h; simpa using le_of_not_lt h

/-- Witness for C6 at three orders (one per class) with the default
constraints. -/
theorem optimizeFleetAllocation_spec_witness :
    (0 : ℚ) < (⟨10, 10, 50, 12⟩ : FleetConstraints).operatingHours ∧
    (0 : ℚ) < (⟨10, 10, 50, 12⟩ : FleetConstraints).maxDrones ∧
    (optimizeFleetAllocation
        [⟨1, 3, ⟨10, 15, 0⟩, "alta", 120, "pending"⟩,
         ⟨2, 4, ⟨25, 30, 0⟩, "media", 80, "pending"⟩,
         ⟨3, 2, ⟨12, 18, 0⟩, "baixa", 40, "pending"⟩] ⟨10, 10, 50, 12⟩).totalDrones ≤
      (⟨10, 10, 50, 12⟩ : FleetConstraints).maxDrones := by
  refine ⟨by norm_num, by norm_num, ?_⟩
  exact (optimizeFleetAllocation_spec
    [⟨1, 3, ⟨10, 15, 0⟩, "alta", 120, "pending"⟩,
     ⟨2, 4, ⟨25, 30, 0⟩, "media", 80, "pending"⟩,
     ⟨3, 2, ⟨12, 18, 0⟩, "baixa", 40, "pending"⟩] ⟨10, 10, 50, 12⟩
    (by norm_num) (by norm_num)).2.1

/-! ### Optimization statistics (`calculateOptimizationStats`) -/

/-- One entry of the `optimizedRoutes` batch fed to the statistics. -/
structure RouteEntry where
  drone : Drone
  orders : List Order
  route : List DPoint
  estimatedTime : ℚ
  estimatedBattery : ℚ
deriving DecidableEq, Repr

/-- `Math.round(x*100)/100` — JS `Math.round` rounds half toward `+∞`,
i.e. `⌊x + 1/2⌋`. -/
def round2 (q : ℚ) : ℚ := ((⌊q * 100 + 1 / 2⌋ : ℤ) : ℚ) / 100

/-- The statistics record returned by `calculateOptimizationStats`. -/
structure OptimizationStats where
  totalRoutes : ℕ
  totalOrders : ℕ
  totalDistance : ℚ
  averageTime : ℚ
  efficiency : ℚ
  utilization : ℚ
deriving DecidableEq, Repr

/-- `calculateOptimizationStats(routes)`.  `totalTime/routes.length || 0`
collapses to plain division in `ℚ` (where `x/0 = 0`, matching the `NaN → 0`
coercion); `efficiency` uses the unrounded total distance, as in the JS. -/
def calculateOptimizationStats (routes : List RouteEntry) : OptimizationStats :=
  let totalOrders := (routes.map (fun r => r.orders.length)).sum
  let totalDistance := (routes.map (fun r => r.estimatedBattery / 2)).sum
  let totalTime := (routes.map (fun r => r.estimatedTime)).sum
  let averageTime := totalTime / routes.length
  { totalRoutes := routes.length
    totalOrders := totalOrders
    totalDistance := round2 totalDistance
    averageTime := round2 averageTime
    efficiency := if 0 < totalOrders then ((totalOrders : ℚ) / totalDistance) * 100 else 0
    utilization := if 0 < routes.length then (totalOrders : ℚ) / routes.length else 0 }

theorem sum_map_div_const (l : List ℚ) (c : ℚ) :
    (l.map (fun x => x / c)).sum = l.sum / c := by
  induction l with
  | nil => simp
  | cons x t ih => simp [ih, add_div]

/-- **C7 (amended).**  The statistics satisfy: total task count is the sum of
order counts; the reported total distance is the summed estimated battery
cost divided by the consumption constant 2 and then rounded to two decimals;
`efficiency` is `(tasks/totalDistance)·100` — a percentage computed from the
unrounded distance — when there are tasks, else 0; `averageTime` is the
rounded mean estimated time; `utilization` is `tasks/assignmentCount` (0 for
an empty batch).  The unamended claim (`efficiency = tasks/totalDistance`,
unrounded exact distance) fails by the factor 100 and by rounding, see the
counterexample. -/
theorem calculateOptimizationStats_amended (routes : List RouteEntry) :
    (calculateOptimizationStats routes).totalRoutes = routes.length ∧
    (calculateOptimizationStats routes).totalOrders =
      (routes.map (fun r => r.orders.length)).sum ∧
    (calculateOptimizationStats routes).totalDistance =
      round2 ((routes.map (fun r => r.estimatedBattery)).sum / 2) ∧
    (calculateOptimizationStats routes).averageTime =
      round2 ((routes.map (fun r => r.estimatedTime)).sum / routes.length) ∧
    (0 < (routes.map (fun r => r.orders.length)).sum →
      (calculateOptimizationStats routes).efficiency =
        (((((routes.map (fun r => r.orders.length)).sum : ℕ) : ℚ)) /
          ((routes.map (fun r => r.estimatedBattery)).sum / 2)) * 100) ∧
    (calculateOptimizationStats routes).utilization =
      (if 0 < routes.length then
        (((((routes.map (fun r => r.orders.length)).sum : ℕ) : ℚ)) / routes.length)
       else 0) := by
  have hdist : (routes.map (fun r => r.estimatedBattery / 2)).sum =
      (routes.map (fun r => r.estimatedBattery)).sum / 2 := by
    have := sum_map_div_const (routes.map (fun r => r.estimatedBattery)) 2
    simpa [List.map_map, Function.comp] using this
  refine ⟨rfl, rfl, ?_, rfl, ?_, rfl⟩
  · simp only [calculateOptimizationStats, hdist]
  · intro h
    simp only [calculateOptimizationStats, hdist, if_pos h]

/-- The one-entry batch used for the C7 witness and counterexample: a single
route entry carrying one order, with estimated battery 2. -/
def statsBatchEx : List RouteEntry :=
  [⟨⟨1, 10, 60, "idle", 100, ⟨0, 0, 0⟩⟩,
    [⟨1, 3, ⟨10, 15, 0⟩, "alta", 120, "pending"⟩], [], 0, 2⟩]

/-- Witness for C7 at the concrete batch `statsBatchEx`. -/
theorem calculateOptimizationStats_amended_witness :
    (0 < (statsBatchEx.map (fun r => r.orders.length)).sum) ∧
    (calculateOptimizationStats statsBatchEx).efficiency =
      (((((statsBatchEx.map (fun r => r.orders.length)).sum : ℕ) : ℚ)) /
        ((statsBatchEx.map (fun r => r.estimatedBattery)).sum / 2)) * 100 :=
  ⟨by decide, (calculateOptimizationStats_amended statsBatchEx).2.2.2.2.1 (by decide)⟩

/-- **C7 counterexample.**  For the same one-entry batch the code's
`efficiency` is `(1/1)·100 = 100`, not `tasks/totalDistance = 1` as the claim
formula states. -/
theorem calculateOptimizationStats_efficiency_cex :
    ¬ ((calculateOptimizationStats statsBatchEx).efficiency =
      (((calculateOptimizationStats statsBatchEx).totalOrders : ℚ) /
        (calculateOptimizationStats statsBatchEx).totalDistance)) := by
  have heff : (calculateOptimizationStats statsBatchEx).efficiency = 100 := by
    norm_num [calculateOptimizationStats, statsBatchEx]
  have hdist : (calculateOptimizationStats statsBatchEx).totalDistance = 1 := by
    norm_num [calculateOptimizationStats, statsBatchEx, round2]
  have hord : (calculateOptimizationStats statsBatchEx).totalOrders = 1 := by
    norm_num [calculateOptimizationStats, statsBatchEx]
  rw [heff, hdist, hord]
  norm_num

/-! ### Random draws

`Math.random()` is an injectable stream `g : ℕ → ℚ`; index arithmetic
mirrors the strictly sequential global consumption of draws. -/

/-- `Math.floor(Math.random() * n)` for draw index `i` of stream `g`. -/
def randFloor (g : ℕ → ℚ) (i : ℕ) (n : ℕ) : ℕ := (⌊g i * n⌋).toNat

/-- The draws of a real `Math.random` lie in `[0, 1)`. -/
def ValidDraws (g : ℕ → ℚ) : Prop := ∀ i, 0 ≤ g i ∧ g i < 1

theorem randFloor_lt (g : ℕ → ℚ) (i n : ℕ) (hg : ValidDraws g) (hn : 0 < n) :
    randFloor g i n < n := by
  obtain ⟨h0, h1⟩ := hg i
  have hnq : (0 : ℚ) < n := by exact_mod_cast hn
  have hmul : g i * n < n := by
    calc g i * n < 1 * n := by exact mul_lt_mul_of_pos_right h1 hnq
    _ = n := one_mul _
  have hfloor : ⌊g i * (n : ℚ)⌋ < (n : ℤ) := by
    rw [Int.floor_lt]
    exact_mod_cast hmul
  have hnn : (0 : ℤ) ≤ ⌊g i * (n : ℚ)⌋ := by
    apply Int.floor_nonneg.mpr
    positivity
  exact (Int.toNat_lt hnn).mpr hfloor

/-! ### K-means base placement (`kMeansBasePlacement`)

The JS function declares `const clusters` inside the `while` block but
references `clusters` in the object literal it returns, outside that block
scope: reaching the `return` statement always raises
`ReferenceError: clusters is not defined`.  The embedding therefore returns
`Except String KMeansResult` and faithfully computes the loop state that the
JS computes before the fault.  (For an empty point set, or `k = 0` with a
non-empty point set, JS faults earlier with a `TypeError` on an undefined
element access; both are modelled as distinct errors.) -/

/-- The result shape the `return` statement *attempts* to build
(`{bases, clusters, averageDistance, iterations}`) — never actually
produced. -/
structure KMeansResult where
  bases : List DPoint
  clusters : List (List DPoint)
  averageDistance : ℚ
  iterations : ℕ
deriving Repr

/-- Initial centroids: `k` uniform draws from the input points, with
replacement (`points[Math.floor(Math.random() * points.length)]`), copying
only the coordinates. -/
def kMeansInitCentroids (g : ℕ → ℚ) (points : List DPoint) (k : ℕ) : List DPoint :=
  (List.range k).map (fun i =>
    let p := points.getD (randFloor g i points.length) ⟨0, 0, 0⟩
    ⟨p.x, p.y, 0⟩)

/-- Index of the nearest centroid, strict-inequality scan: ties keep the
lowest index (the same scan shape as the nearest-neighbor route). -/
def nearestCentroidIdx (d : Dist) (p : DPoint) (centroids : List DPoint) : ℕ :=
  match centroids with
  | [] => 0
  | c :: rest => nnScan d p (d p c) 0 1 rest

/-- One assignment phase: distribute every point to its nearest centroid
(`clusters[nearestCentroid].push(point)` over `Array(k)` of empty lists). -/
def assignClusters (d : Dist) (k : ℕ) (points : List DPoint)
    (centroids : List DPoint) : List (List DPoint) :=
  points.foldl
    (fun cl p => cl.set (nearestCentroidIdx d p centroids)
      (cl.getD (nearestCentroidIdx d p centroids) [] ++ [p]))
    (List.replicate k [])

/-- Arithmetic-mean centroid of a cluster
(`calculateCenterLocation(cluster.map(p => ({location: p})))`). -/
def centroidOfPoints (cl : List DPoint) : DPoint :=
  ⟨(cl.map DPoint.x).sum / cl.length, (cl.map DPoint.y).sum / cl.length, 0⟩

/-- One update phase: every non-empty cluster moves its centroid to the
cluster mean when the move exceeds 0.1 distance units; empty clusters leave
their centroid unchanged. -/
def updateCentroids (d : Dist) (k : ℕ) (centroids : List DPoint)
    (clusters : List (List DPoint)) : List DPoint × Bool :=
  (List.range k).foldl
    (fun acc i =>
      let cl := clusters.getD i []
      if cl.isEmpty then acc
      else
        let newCentroid := centroidOfPoints cl
        if 1 / 10 < d (acc.1.getD i ⟨0, 0, 0⟩) newCentroid then
          (acc.1.set i newCentroid, true)
        else acc)
    (centroids, false)

/-- The `while (changed && iterations < maxIterations)` loop; the fuel is the
number of remaining permitted iterations (100 at entry). -/
def kMeansLoop (d : Dist) (points : List DPoint) (k : ℕ) :
    ℕ → List DPoint → ℕ → List DPoint × ℕ
  | 0, centroids, iterations => (centroids, iterations)
  | fuel + 1, centroids, iterations =>
    let clusters := assignClusters d k points centroids
    let upd := updateCentroids d k centroids clusters
    if upd.2 then kMeansLoop d points k fuel upd.1 (iterations + 1)
    else (upd.1, iterations + 1)

/-- `kMeansBasePlacement(points, k)`.  The loop state is computed exactly as
in the JS, and then the `return` faults on the out-of-scope `clusters`. -/
def kMeansBasePlacement (d : Dist) (g : ℕ → ℚ) (points : List DPoint) (k : ℕ) :
    Except String KMeansResult :=
  if points.isEmpty ∧ 0 < k then
    Except.error "TypeError: undefined element in centroid initialization"
  else if k = 0 ∧ ¬points.isEmpty then
    Except.error "TypeError: undefined centroid in cluster assignment"
  else
    let centroids0 := kMeansInitCentroids g points k
    let _finalState := kMeansLoop d points k 100 centroids0 0
    Except.error "ReferenceError: clusters is not defined"

/-- **C2.**  For every non-empty demand point set and every `k > 1` (and any
distance function and random stream), `kMeansBasePlacement` raises an uncaught
`ReferenceError` instead of returning the centroids and partition: `clusters`
is `const`-declared inside the `while` block but referenced in the returned
object literal, outside its scope.  The claim (and the repository's own
k-means test) describes the clearly intended behavior; the code faults. -/
theorem kMeansBasePlacement_raises (d : Dist) (g : ℕ → ℚ) (points : List DPoint)
    (k : ℕ) (hp : points ≠ []) (hk : 2 ≤ k) :
    kMeansBasePlacement d g points k =
      Except.error "ReferenceError: clusters is not defined" := by
  unfold kMeansBasePlacement
  rw [if_neg, if_neg]
  · rintro ⟨hk0, -⟩
    omega
  · rintro ⟨hpe, -⟩
    exact hp (List.isEmpty_iff.mp hpe)

/-- Witness for C2 at the input of the repository's k-means unit test:
points `(1,1), (2,2), (10,10), (11,11)` with `k = 2`. -/
theorem kMeansBasePlacement_raises_witness :
    ([⟨1, 1, 0⟩, ⟨2, 2, 0⟩, ⟨10, 10, 0⟩, ⟨11, 11, 0⟩] : List DPoint) ≠ [] ∧ 2 ≤ 2 ∧
    kMeansBasePlacement calculateManhattanDistance (fun _ => 0)
        [⟨1, 1, 0⟩, ⟨2, 2, 0⟩, ⟨10, 10, 0⟩, ⟨11, 11, 0⟩] 2 =
      Except.error "ReferenceError: clusters is not defined" :=
  ⟨by decide, le_refl 2, kMeansBasePlacement_raises calculateManhattanDistance
    (fun _ => 0) [⟨1, 1, 0⟩, ⟨2, 2, 0⟩, ⟨10, 10, 0⟩, ⟨11, 11, 0⟩] 2 (by decide) (le_refl 2)⟩

/-! ### Shuffle (`shuffleArray`, Fisher–Yates, in place) -/

/-- `for (let i = array.length - 1; i > 0; i--) { j = ⌊rand·(i+1)⌋; swap i j }`;
`r` is the rng cursor at entry, one draw per iteration. -/
def shuffleGo (g : ℕ → ℚ) : List α → ℕ → ℕ → List α
  | l, 0, _ => l
  | l, i + 1, r => shuffleGo g (swapL l (i + 1) (randFloor g r (i + 2))) i (r + 1)

/-- `shuffleArray(array)` applied to a copy, with the rng cursor returned. -/
def shuffleArray (g : ℕ → ℚ) (l : List α) (r : ℕ) : List α × ℕ :=
  (shuffleGo g l (l.length - 1) r, r + (l.length - 1))

theorem shuffleGo_perm (g : ℕ → ℚ) :
    ∀ (i : ℕ) (l : List α) (r : ℕ), shuffleGo g l i r ~ l := by
  intro i
  induction i with
  | zero => intro l r; rfl
  | succ n ih =>
    intro l r
    exact (ih (swapL l (n + 1) (randFloor g r (n + 2))) (r + 1)).trans
      (swapL_perm l (n + 1) (randFloor g r (n + 2)))

theorem shuffleArray_perm (g : ℕ → ℚ) (l : List α) (r : ℕ) :
    (shuffleArray g l r).1 ~ l :=
  shuffleGo_perm g (l.length - 1) l r

/-! ### Simulated annealing (`simulatedAnnealingRoute`)

`Math.exp` is transcendental; it enters only through the acceptance
comparison `Math.random() < Math.exp((current-new)/temperature)`, so the
embedding is parametrized over an arbitrary `expQ : ℚ → ℚ` and the theorems
hold for every such function.  The JS cooling literal `0.995` is embedded as
`199/200`; the temperature feeds only `expQ`'s argument. -/

/-- The mutable loop state of `simulatedAnnealingRoute`. -/
structure SAState where
  currentRoute : List DPoint
  currentDistance : ℚ
  bestRoute : List DPoint
  bestDistance : ℚ
  temperature : ℚ
  ridx : ℕ
deriving Repr

/-- One iteration: swap two uniformly random positions, accept when strictly
better or with probability `exp((current−new)/temperature)` (that draw is
made only when the first test fails, as JS `||` short-circuits), track the
best-so-far, cool down. -/
def saIter (d : Dist) (expQ : ℚ → ℚ) (g : ℕ → ℚ) (startPoint : DPoint)
    (s : SAState) : SAState :=
  let i := randFloor g s.ridx s.currentRoute.length
  let j := randFloor g (s.ridx + 1) s.currentRoute.length
  let newRoute := swapL s.currentRoute i j
  let newDistance := calculateRouteDistance d newRoute startPoint
  if newDistance < s.currentDistance then
    { currentRoute := newRoute, currentDistance := newDistance,
      bestRoute := if newDistance < s.bestDistance then newRoute else s.bestRoute,
      bestDistance := if newDistance < s.bestDistance then newDistance else s.bestDistance,
      temperature := s.temperature * (199 / 200), ridx := s.ridx + 2 }
  else if g (s.ridx + 2) < expQ ((s.currentDistance - newDistance) / s.temperature) then
    { currentRoute := newRoute, currentDistance := newDistance,
      bestRoute := if newDistance < s.bestDistance then newRoute else s.bestRoute,
      bestDistance := if newDistance < s.bestDistance then newDistance else s.bestDistance,
      temperature := s.temperature * (199 / 200), ridx := s.ridx + 3 }
  else
    { s with temperature := s.temperature * (199 / 200), ridx := s.ridx + 3 }

/-- Iterate a function `n` times. -/
def iterN (f : α → α) : ℕ → α → α
  | 0, a => a
  | n + 1, a => iterN f n (f a)

theorem iterN_invariant {P : α → Prop} (f : α → α) (hf : ∀ a, P a → P (f a)) :
    ∀ (n : ℕ) (a : α), P a → P (iterN f n a) := by
  intro n
  induction n with
  | zero => intro a h; exact h
  | succ m ih => intro a h; exact ih (f a) (hf a h)

/-- `simulatedAnnealingRoute(points, startPoint, maxIterations)`; `r` is the
rng cursor at entry and the final cursor is returned. -/
def simulatedAnnealingRoute (d : Dist) (expQ : ℚ → ℚ) (g : ℕ → ℚ)
    (points : List DPoint) (startPoint : DPoint) (maxIterations : ℕ) (r : ℕ) :
    List DPoint × ℕ :=
  if points.isEmpty then ([startPoint], r)
  else
    let shuffled := (shuffleArray g points r).1
    let dist0 := calculateRouteDistance d shuffled startPoint
    let s0 : SAState := ⟨shuffled, dist0, shuffled, dist0, 100, (shuffleArray g points r).2⟩
    let sF := iterN (saIter d expQ g startPoint) maxIterations s0
    (startPoint :: (sF.bestRoute ++ [startPoint]), sF.ridx)

/-- The SA loop keeps both the current and the best route permutations of the
input point set. -/
def SAInv (points : List DPoint) (s : SAState) : Prop :=
  s.currentRoute ~ points ∧ s.bestRoute ~ points

theorem saIter_invariant (d : Dist) (expQ : ℚ → ℚ) (g : ℕ → ℚ)
    (startPoint : DPoint) (points : List DPoint) (s : SAState)
    (h : SAInv points s) : SAInv points (saIter d expQ g startPoint s) := by
  obtain ⟨hc, hb⟩ := h
  have hsw : swapL s.currentRoute (randFloor g s.ridx s.currentRoute.length)
      (randFloor g (s.ridx + 1) s.currentRoute.length) ~ points :=
    (swapL_perm _ _ _).trans hc
  unfold saIter
  dsimp only
  split
  · constructor
    · exact hsw
    · dsimp only
      split
      · exact hsw
      · exact hb
  · split
    · constructor
      · exact hsw
      · dsimp only
        split
        · exact hsw
        · exact hb
    · exact ⟨hc, hb⟩

theorem simulatedAnnealingRoute_perm (d : Dist) (expQ : ℚ → ℚ) (g : ℕ → ℚ)
    (points : List DPoint) (startPoint : DPoint) (maxIterations r : ℕ)
    (hp : points ≠ []) :
    ∃ mid, (simulatedAnnealingRoute d expQ g points startPoint maxIterations r).1 =
      startPoint :: (mid ++ [startPoint]) ∧ mid ~ points := by
  refine ⟨(iterN (saIter d expQ g startPoint) maxIterations
    ⟨(shuffleArray g points r).1,
     calculateRouteDistance d (shuffleArray g points r).1 startPoint,
     (shuffleArray g points r).1,
     calculateRouteDistance d (shuffleArray g points r).1 startPoint,
     100, (shuffleArray g points r).2⟩).bestRoute, ?_, ?_⟩
  · simp [simulatedAnnealingRoute, List.isEmpty_iff, hp]
  · have hinv := iterN_invariant (P := SAInv points) (saIter d expQ g startPoint)
      (fun s hs => saIter_invariant d expQ g startPoint points s hs) maxIterations
      ⟨(shuffleArray g points r).1,
       calculateRouteDistance d (shuffleArray g points r).1 startPoint,
       (shuffleArray g points r).1,
       calculateRouteDistance d (shuffleArray g points r).1 startPoint,
       100, (shuffleArray g points r).2⟩
      ⟨shuffleArray_perm g points r, shuffleArray_perm g points r⟩
    exact hinv.2

/-! ### Order crossover (`orderCrossover`)

The JS builds `child = new Array(length)` (an array of holes), copies the
slice `[start..end]` of `parent1` verbatim, then walks `parent2`, writing
each not-yet-selected item at `childIndex`, which starts at 0, jumps over the
copied slice when it reaches `start`, and stops at the end of the array.
Holes are modelled as `Option`; the child after the segment copy is written
in its closed form (positions `start..endI` hold `parent1`'s slice, all
other positions are still holes), and the `parent2` walk is the recursive
`orderCrossoverFill`.  Keys are `orderId` (`p.orderId || p.id`; delivery
points carry `orderId`), assumed pairwise distinct as task ids are. -/

/-- The copied slice `parent1[start..endI]`. -/
def ocSeg (p1 : List DPoint) (start endI : ℕ) : List DPoint :=
  (p1.drop start).take (endI + 1 - start)

/-- The `selected` key set after the segment copy. -/
def ocSelected (p1 : List DPoint) (start endI : ℕ) : List ℕ :=
  (ocSeg p1 start endI).map DPoint.orderId

/-- The child array right after the segment-copy loop. -/
def ocSegChild (p1 : List DPoint) (len start endI : ℕ) : List (Option DPoint) :=
  List.replicate start none ++ (ocSeg p1 start endI).map some ++
    List.replicate (len - (endI + 1)) none

/-- The `for (i of parent2)` fill loop with its `childIndex` cursor. -/
def orderCrossoverFill (selected : List ℕ) (len start endI : ℕ) :
    List DPoint → List (Option DPoint) → ℕ → List (Option DPoint)
  | [], child, _ => child
  | item :: rest, child, childIndex =>
    let ci := if childIndex = start then endI + 1 else childIndex
    if len ≤ ci then child
    else if item.orderId ∈ selected then
      orderCrossoverFill selected len start endI rest child ci
    else
      orderCrossoverFill selected len start endI rest (child.set ci (some item)) (ci + 1)

/-- `orderCrossover(parent1, parent2)` for slice bounds `start ≤ endI`
(chosen from two random draws at the call site). -/
def orderCrossover (p1 p2 : List DPoint) (start endI : ℕ) : List DPoint :=
  (orderCrossoverFill (ocSelected p1 start endI) p1.length start endI p2
    (ocSegChild p1 p1.length start endI) 0).reduceOption

theorem reduceOption_set_some_perm (item : DPoint) :
    ∀ (child : List (Option DPoint)) (ci : ℕ), child[ci]? = some none →
      (child.set ci (some item)).reduceOption ~ item :: child.reduceOption := by
  intro child
  induction child with
  | nil => intro ci h; simp at h
  | cons x t ih =>
    intro ci h
    cases ci with
    | zero =>
      simp only [List.getElem?_cons_zero, Option.some.injEq] at h
      subst h
      simp [List.reduceOption_cons_of_some, List.reduceOption_cons_of_none]
    | succ k =>
      simp only [List.getElem?_cons_succ] at h
      have hrec := ih k h
      cases x with
      | none =>
        simpa [List.reduceOption_cons_of_none] using hrec
      | some a =>
        simp only [List.set_cons_succ, List.reduceOption_cons_of_some]
        exact (hrec.cons a).trans (List.Perm.swap item a t.reduceOption)

theorem ocSegChild_length (p1 : List DPoint) (start endI : ℕ)
    (hse : start ≤ endI) (hel : endI < p1.length) :
    (ocSegChild p1 p1.length start endI).length = p1.length := by
  have hseg : (ocSeg p1 start endI).length = endI + 1 - start := by
    simp only [ocSeg, List.length_take, List.length_drop]
    omega
  simp only [ocSegChild, List.length_append, List.length_replicate,
    List.length_map, hseg]
  omega

theorem ocSegChild_getElem?_none (p1 : List DPoint) (start endI i : ℕ)
    (hse : start ≤ endI) (hel : endI < p1.length) (hi : i < p1.length)
    (hzone : i < start ∨ endI < i) :
    (ocSegChild p1 p1.length start endI)[i]? = some none := by
  have hseg : (ocSeg p1 start endI).length = endI + 1 - start := by
    simp only [ocSeg, List.length_take, List.length_drop]
    omega
  rcases hzone with hlt | hgt
  · rw [ocSegChild, List.getElem?_append_left
      (by simp only [List.length_append, List.length_replicate, List.length_map, hseg]; omega),
      List.getElem?_append_left (by simpa using hlt)]
    simp [hlt]
  · rw [ocSegChild, List.getElem?_append_right
      (by simp only [List.length_append, List.length_replicate, List.length_map, hseg]; omega)]
    have harith : i - (List.replicate start (none : Option DPoint) ++
        (ocSeg p1 start endI).map some).length < p1.length - (endI + 1) := by
      simp only [List.length_append, List.length_replicate, List.length_map, hseg]
      omega
    simpa using List.getElem?_replicate_of_lt harith

theorem ocSegChild_reduceOption (p1 : List DPoint) (len start endI : ℕ) :
    (ocSegChild p1 len start endI).reduceOption = ocSeg p1 start endI := by
  have hrep : ∀ n : ℕ, (List.replicate n (none : Option DPoint)).reduceOption = [] := by
    intro n
    induction n with
    | zero => rfl
    | succ m ih => simpa [List.reduceOption_cons_of_none] using ih
  have hmap : ((ocSeg p1 start endI).map some).reduceOption = ocSeg p1 start endI := by
    induction ocSeg p1 start endI with
    | nil => rfl
    | cons x t ih => simpa [List.reduceOption_cons_of_some] using ih
  simp [ocSegChild, List.reduceOption_append, hrep, hmap]

/-- Invariant of the fill loop: positions at or beyond the cursor that lie
outside the copied slice are still holes. -/
def FillInv (len start endI : ℕ) (child : List (Option DPoint)) (ci : ℕ) : Prop :=
  child.length = len ∧ (ci ≤ start ∨ endI < ci) ∧
  ∀ i, ci ≤ i → i < len → (i < start ∨ endI < i) → child[i]? = some none

/-- Number of hole positions at or beyond the cursor. -/
def freeCount (len start endI ci : ℕ) : ℕ :=
  if ci ≤ start then (start - ci) + (len - (endI + 1)) else len - ci

theorem ocFill_cons_eq (selected : List ℕ) (len start endI : ℕ) (item : DPoint)
    (rest : List DPoint) (child : List (Option DPoint)) (ci : ℕ) :
    orderCrossoverFill selected len start endI (item :: rest) child ci =
      (fun ci' =>
        if len ≤ ci' then child
        else if item.orderId ∈ selected then
          orderCrossoverFill selected len start endI rest child ci'
        else
          orderCrossoverFill selected len start endI rest
            (child.set ci' (some item)) (ci' + 1))
        (if ci = start then endI + 1 else ci) := rfl

theorem ocFill_step_perm (selected : List ℕ) (len start endI : ℕ)
    (hse : start ≤ endI) (hel : endI < len) (item : DPoint) (rest : List DPoint)
    (IH : ∀ (child : List (Option DPoint)) (ci : ℕ),
      FillInv len start endI child ci →
      (rest.filter (fun it => decide (it.orderId ∉ selected))).length ≤
        freeCount len start endI ci →
      (orderCrossoverFill selected len start endI rest child ci).reduceOption ~
        (rest.filter (fun it => decide (it.orderId ∉ selected))) ++ child.reduceOption)
    (child : List (Option DPoint)) (ci' : ℕ) (hlen : child.length = len)
    (hpos' : ci' < start ∨ endI < ci')
    (hzone : ∀ i, ci' ≤ i → i < len → (i < start ∨ endI < i) → child[i]? = some none)
    (hcnt : (((item :: rest).filter (fun it => decide (it.orderId ∉ selected))).length ≤
      freeCount len start endI ci')) :
    (if len ≤ ci' then child
     else if item.orderId ∈ selected then
       orderCrossoverFill selected len start endI rest child ci'
     else orderCrossoverFill selected len start endI rest
       (child.set ci' (some item)) (ci' + 1)).reduceOption ~
      ((item :: rest).filter (fun it => decide (it.orderId ∉ selected))) ++
        child.reduceOption := by
  by_cases hstop : len ≤ ci'
  · rw [if_pos hstop]
    have h0 : freeCount len start endI ci' = 0 := by
      simp only [freeCount]
      split_ifs <;> omega
    have hnil : ((item :: rest).filter (fun it => decide (it.orderId ∉ selected))) = [] :=
      List.length_eq_zero.mp (by omega)
    rw [hnil]
    exact List.Perm.refl _
  · rw [if_neg hstop]
    have hlt : ci' < len := Nat.lt_of_not_le hstop
    by_cases hsel : item.orderId ∈ selected
    · rw [if_pos hsel]
      have hfil : ((item :: rest).filter (fun it => decide (it.orderId ∉ selected))) =
          rest.filter (fun it => decide (it.orderId ∉ selected)) := by
        simp [hsel]
      rw [hfil] at hcnt ⊢
      exact IH child ci' ⟨hlen, by omega, hzone⟩ hcnt
    · rw [if_neg hsel]
      have hfil : ((item :: rest).filter (fun it => decide (it.orderId ∉ selected))) =
          item :: rest.filter (fun it => decide (it.orderId ∉ selected)) := by
        simp [hsel]
      have hnone : child[ci']? = some none := hzone ci' le_rfl hlt hpos'
      have hset := reduceOption_set_some_perm item child ci' hnone
      have hinv' : FillInv len start endI (child.set ci' (some item)) (ci' + 1) := by
        refine ⟨by simpa using hlen, by omega, ?_⟩
        intro i hge hilen hiz
        rw [List.getElem?_set_ne (by omega)]
        exact hzone i (by omega) hilen hiz
      have hfc : freeCount len start endI ci' = freeCount len start endI (ci' + 1) + 1 := by
        simp only [freeCount]
        split_ifs <;> omega
      have hcnt' : ((rest.filter (fun it => decide (it.orderId ∉ selected))).length ≤
          freeCount len start endI (ci' + 1)) := by
        rw [hfil] at hcnt
        simp only [List.length_cons] at hcnt
        omega
      have hrec := IH (child.set ci' (some item)) (ci' + 1) hinv' hcnt'
      rw [hfil]
      calc (orderCrossoverFill selected len start endI rest
            (child.set ci' (some item)) (ci' + 1)).reduceOption
          ~ (rest.filter (fun it => decide (it.orderId ∉ selected))) ++
              (child.set ci' (some item)).reduceOption := hrec
        _ ~ (rest.filter (fun it => decide (it.orderId ∉ selected))) ++
              (item :: child.reduceOption) :=
            hset.append_left _
        _ ~ item :: ((rest.filter (fun it => decide (it.orderId ∉ selected))) ++
              child.reduceOption) := List.perm_middle
        _ = (item :: rest.filter (fun it => decide (it.orderId ∉ selected))) ++
              child.reduceOption := rfl

theorem orderCrossoverFill_perm (selected : List ℕ) (len start endI : ℕ)
    (hse : start ≤ endI) (hel : endI < len) :
    ∀ (p2 : List DPoint) (child : List (Option DPoint)) (ci : ℕ),
      FillInv len start endI child ci →
      ((p2.filter (fun it => decide (it.orderId ∉ selected))).length ≤
        freeCount len start endI ci) →
      (orderCrossoverFill selected len start endI p2 child ci).reduceOption ~
        (p2.filter (fun it => decide (it.orderId ∉ selected))) ++ child.reduceOption := by
  intro p2
  induction p2 with
  | nil =>
    intro child ci _ _
    simp [orderCrossoverFill]
  | cons item rest ih =>
    intro child ci hinv hcnt
    obtain ⟨hlen, hpos, hzone⟩ := hinv
    rw [ocFill_cons_eq]
    rcases eq_or_ne ci start with hcs | hcs
    · rw [if_pos hcs]
      refine ocFill_step_perm selected len start endI hse hel item rest ih child
        (endI + 1) hlen (by omega) ?_ ?_
      · intro i hge hilen hiz
        exact hzone i (by omega) hilen hiz
      · have : freeCount len start endI (endI + 1) = freeCount len start endI ci := by
          simp only [freeCount]
          split_ifs <;> omega
        omega
    · rw [if_neg hcs]
      have hpos2 : ci < start ∨ endI < ci := by
        rcases hpos with h | h
        · left; omega
        · right; exact h
      exact ocFill_step_perm selected len start endI hse hel item rest ih child
        ci hlen hpos2 hzone hcnt

theorem p1_split (p1 : List DPoint) (start endI : ℕ) (hse : start ≤ endI) :
    p1 = p1.take start ++ (ocSeg p1 start endI ++ p1.drop (endI + 1)) := by
  have h1 : ocSeg p1 start endI ++ (p1.drop start).drop (endI + 1 - start) =
      p1.drop start := by
    simp [ocSeg]
  have h2 : (p1.drop start).drop (endI + 1 - start) = p1.drop (endI + 1) := by
    rw [List.drop_drop]
    congr 1
    omega
  rw [← h2, h1, List.take_append_drop]

theorem filter_not_selected_perm (pts p1 p2 : List DPoint) (start endI : ℕ)
    (hp1 : p1 ~ pts) (hp2 : p2 ~ pts) (hnd : (pts.map DPoint.orderId).Nodup)
    (hse : start ≤ endI) (_hel : endI < p1.length) :
    p2.filter (fun it => decide (it.orderId ∉ ocSelected p1 start endI)) ~
      p1.take start ++ p1.drop (endI + 1) := by
  have hfilt : p2.filter (fun it => decide (it.orderId ∉ ocSelected p1 start endI)) ~
      p1.filter (fun it => decide (it.orderId ∉ ocSelected p1 start endI)) :=
    (hp2.trans hp1.symm).filter _
  have hnd1 : (p1.map DPoint.orderId).Nodup := ((hp1.map DPoint.orderId).nodup_iff).mpr hnd
  have hnd2 : ((p1.take start).map DPoint.orderId ++ ((ocSeg p1 start endI).map
      DPoint.orderId ++ (p1.drop (endI + 1)).map DPoint.orderId)).Nodup := by
    have := p1_split p1 start endI hse
    rw [this, List.map_append, List.map_append] at hnd1
    exact hnd1
  have hdisj1 := (List.nodup_append.mp hnd2).2.2
  have hnd3 := (List.nodup_append.mp hnd2).2.1
  have hdisj2 := (List.nodup_append.mp hnd3).2.2
  have htake : (p1.take start).filter
      (fun it => decide (it.orderId ∉ ocSelected p1 start endI)) = p1.take start := by
    apply List.filter_eq_self.mpr
    intro x hx
    simp only [decide_eq_true_eq]
    intro hmem
    exact hdisj1 (List.mem_map_of_mem DPoint.orderId hx)
      (List.mem_append_left _ hmem)
  have hseg : (ocSeg p1 start endI).filter
      (fun it => decide (it.orderId ∉ ocSelected p1 start endI)) = [] := by
    apply List.filter_eq_nil_iff.mpr
    intro x hx
    simp only [decide_eq_true_eq, not_not]
    exact List.mem_map_of_mem DPoint.orderId hx
  have hdrop : (p1.drop (endI + 1)).filter
      (fun it => decide (it.orderId ∉ ocSelected p1 start endI)) = p1.drop (endI + 1) := by
    apply List.filter_eq_self.mpr
    intro x hx
    simp only [decide_eq_true_eq]
    intro hmem
    exact hdisj2 hmem (List.mem_map_of_mem DPoint.orderId hx)
  have heq : p1.filter (fun it => decide (it.orderId ∉ ocSelected p1 start endI)) =
      p1.take start ++ p1.drop (endI + 1) := by
    have hcong := congrArg
      (List.filter (fun it => decide (it.orderId ∉ ocSelected p1 start endI)))
      (p1_split p1 start endI hse)
    rw [List.filter_append, List.filter_append, htake, hseg, hdrop] at hcong
    simpa using hcong
  rw [heq] at hfilt
  exact hfilt

/-- Order crossover of two permutations of a duplicate-free point set (with
slice bounds inside the array) is again a permutation of that set: the slice
of `parent1` is copied verbatim and the remaining positions take exactly the
not-yet-selected points of `parent2`, in `parent2`'s order. -/
theorem orderCrossover_perm (pts p1 p2 : List DPoint) (start endI : ℕ)
    (hp1 : p1 ~ pts) (hp2 : p2 ~ pts) (hnd : (pts.map DPoint.orderId).Nodup)
    (hse : start ≤ endI) (hel : endI < p1.length) :
    orderCrossover p1 p2 start endI ~ pts := by
  have hinv0 : FillInv p1.length start endI (ocSegChild p1 p1.length start endI) 0 := by
    refine ⟨ocSegChild_length p1 start endI hse hel, Or.inl (Nat.zero_le _), ?_⟩
    intro i _ hi hz
    exact ocSegChild_getElem?_none p1 start endI i hse hel hi hz
  have hfl := filter_not_selected_perm pts p1 p2 start endI hp1 hp2 hnd hse hel
  have hlenf : (p2.filter
      (fun it => decide (it.orderId ∉ ocSelected p1 start endI))).length =
      freeCount p1.length start endI 0 := by
    rw [hfl.length_eq]
    simp only [List.length_append, List.length_take, List.length_drop, freeCount,
      if_pos (Nat.zero_le start)]
    omega
  have hfill := orderCrossoverFill_perm (ocSelected p1 start endI) p1.length start endI
    hse hel p2 (ocSegChild p1 p1.length start endI) 0 hinv0 (le_of_eq hlenf)
  unfold orderCrossover
  calc (orderCrossoverFill (ocSelected p1 start endI) p1.length start endI p2
        (ocSegChild p1 p1.length start endI) 0).reduceOption
      ~ (p2.filter (fun it => decide (it.orderId ∉ ocSelected p1 start endI))) ++
          (ocSegChild p1 p1.length start endI).reduceOption := hfill
    _ = (p2.filter (fun it => decide (it.orderId ∉ ocSelected p1 start endI))) ++
          ocSeg p1 start endI := by rw [ocSegChild_reduceOption]
    _ ~ (p1.take start ++ p1.drop (endI + 1)) ++ ocSeg p1 start endI :=
        hfl.append_right _
    _ ~ p1.take start ++ (ocSeg p1 start endI ++ p1.drop (endI + 1)) := by
        rw [List.append_assoc]
        exact (List.perm_append_comm.append_left (p1.take start))
    _ = p1 := (p1_split p1 start endI hse).symm
    _ ~ pts := hp1

/-! ### Genetic algorithm (`geneticAlgorithmRoute`) -/

/-- `initializePopulation(points, populationSize)`: that many independent
shuffles of the point list (rng cursor threaded through). -/
def initPopulation (g : ℕ → ℚ) (points : List DPoint) :
    ℕ → ℕ → List (List DPoint) × ℕ
  | 0, r => ([], r)
  | k + 1, r =>
    ((shuffleArray g points r).1 ::
        (initPopulation g points k (shuffleArray g points r).2).1,
      (initPopulation g points k (shuffleArray g points r).2).2)

/-- Fitness of each individual: `1 / totalRouteDistance` (JS yields
`Infinity` for a zero-distance route where `ℚ` yields 0 — this can only
change which individual is selected, never the permutation property). -/
def gaFitness (d : Dist) (startPoint : DPoint) (pop : List (List DPoint)) : List ℚ :=
  pop.map (fun route => 1 / calculateRouteDistance d route startPoint)

/-- Index chosen by tournament selection: one uniform candidate, then two
more, keeping the strictly fitter one each time. -/
def tsIdx (g : ℕ → ℚ) (fitness : List ℚ) (n r : ℕ) : ℕ :=
  let i0 := randFloor g r n
  let c1 := randFloor g (r + 1) n
  let i1 := if fitness.getD i0 0 < fitness.getD c1 0 then c1 else i0
  let c2 := randFloor g (r + 2) n
  if fitness.getD i1 0 < fitness.getD c2 0 then c2 else i1

/-- `tournamentSelection(population, fitness)` (three draws). -/
def tournamentSelection (g : ℕ → ℚ) (pop : List (List DPoint)) (fitness : List ℚ)
    (r : ℕ) : List DPoint × ℕ :=
  (pop.getD (tsIdx g fitness pop.length r) [], r + 3)

/-- `mutateRoute(route)`: swap two uniformly random positions of a copy. -/
def mutateRoute (g : ℕ → ℚ) (route : List DPoint) (r : ℕ) : List DPoint :=
  swapL route (randFloor g r route.length) (randFloor g (r + 1) route.length)

/-- Produce one offspring: two tournament selections, order crossover on a
random slice, then mutation with probability 0.1 (the JS double literal,
embedded as `1/10`; only the branch taken depends on it). -/
def gaChild (g : ℕ → ℚ) (pop : List (List DPoint)) (fitness : List ℚ)
    (r : ℕ) : List DPoint × ℕ :=
  let p1 := (tournamentSelection g pop fitness r).1
  let p2 := (tournamentSelection g pop fitness (r + 3)).1
  let start := randFloor g (r + 6) p1.length
  let endI := randFloor g (r + 7) (p1.length - start) + start
  let child := orderCrossover p1 p2 start endI
  if g (r + 8) < 1 / 10 then (mutateRoute g child (r + 9), r + 11)
  else (child, r + 9)

/-- The `for (let i = 0; i < populationSize; i++)` offspring loop. -/
def buildPop (g : ℕ → ℚ) (pop : List (List DPoint)) (fitness : List ℚ) :
    ℕ → ℕ → List (List DPoint) × ℕ
  | 0, r => ([], r)
  | k + 1, r =>
    ((gaChild g pop fitness r).1 ::
        (buildPop g pop fitness k (gaChild g pop fitness r).2).1,
      (buildPop g pop fitness k (gaChild g pop fitness r).2).2)

/-- One generation: evaluate fitness of the current population, then build
`populationSize` offspring. -/
def gaGeneration (d : Dist) (g : ℕ → ℚ) (startPoint : DPoint) (populationSize : ℕ)
    (state : List (List DPoint) × ℕ) : List (List DPoint) × ℕ :=
  buildPop g state.1 (gaFitness d startPoint state.1) populationSize state.2

/-- `Math.max(...fitness)` (0 for an empty list, which cannot occur). -/
def maxQ : List ℚ → ℚ
  | [] => 0
  | x :: t => t.foldl max x

/-- `fitness.indexOf(Math.max(...fitness))`. -/
def idxOfMax (l : List ℚ) : ℕ := l.indexOf (maxQ l)

/-- `geneticAlgorithmRoute(points, startPoint, maxGenerations)`: delegate to
nearest-neighbor for `n ≤ 3`, else run the generational loop and return the
best individual of the final generation wrapped with the origin. -/
def geneticAlgorithmRoute (d : Dist) (g : ℕ → ℚ) (points : List DPoint)
    (startPoint : DPoint) (maxGenerations : ℕ) (r : ℕ) : List DPoint × ℕ :=
  if points.isEmpty then ([startPoint], r)
  else if points.length ≤ 3 then (nearestNeighborRoute d points startPoint, r)
  else
    let populationSize := min 50 (points.length * 4)
    let state0 := initPopulation g points populationSize r
    let stateF := iterN (gaGeneration d g startPoint populationSize) maxGenerations state0
    let fitness := gaFitness d startPoint stateF.1
    (startPoint :: (stateF.1.getD (idxOfMax fitness) [] ++ [startPoint]), stateF.2)

theorem tsIdx_lt (g : ℕ → ℚ) (fitness : List ℚ) (n r : ℕ) (hg : ValidDraws g)
    (hn : 0 < n) : tsIdx g fitness n r < n := by
  have h0 := randFloor_lt g r n hg hn
  have h1 := randFloor_lt g (r + 1) n hg hn
  have h2 := randFloor_lt g (r + 2) n hg hn
  have hif : ∀ (c : Prop) (_ : Decidable c) (a b : ℕ), a < n → b < n →
      (if c then a else b) < n := by
    intro c inst a b ha hb
    split <;> assumption
  unfold tsIdx
  dsimp only
  exact hif _ _ _ _ h2 (hif _ _ _ _ h1 h0)

theorem getD_mem_of_lt (l : List α) (i : ℕ) (dflt : α) (h : i < l.length) :
    l.getD i dflt ∈ l := by
  rw [List.getD_eq_getElem?_getD, List.getElem?_eq_getElem h]
  exact List.getElem_mem h

theorem tournamentSelection_mem (g : ℕ → ℚ) (pop : List (List DPoint))
    (fitness : List ℚ) (r : ℕ) (hg : ValidDraws g) (hne : pop ≠ []) :
    (tournamentSelection g pop fitness r).1 ∈ pop := by
  have hn : 0 < pop.length := List.length_pos.mpr hne
  exact getD_mem_of_lt pop _ [] (tsIdx_lt g fitness pop.length r hg hn)

theorem maxQ_mem : ∀ (l : List ℚ), l ≠ [] → maxQ l ∈ l := by
  have haux : ∀ (t : List ℚ) (x : ℚ), t.foldl max x ∈ x :: t := by
    intro t
    induction t with
    | nil => intro x; simp
    | cons y t ih =>
      intro x
      simp only [List.foldl_cons]
      have h := ih (max x y)
      rcases List.mem_cons.mp h with heq | hmem
      · rw [heq]
        rcases max_choice x y with hx | hy
        · rw [hx]; exact List.mem_cons_self x (y :: t)
        · rw [hy]
          exact List.mem_cons_of_mem x (List.mem_cons_self y t)
      · exact List.mem_cons_of_mem x (List.mem_cons_of_mem y hmem)
  intro l hl
  match l with
  | x :: t => exact haux t x

theorem initPopulation_spec (g : ℕ → ℚ) (points : List DPoint) :
    ∀ (k r : ℕ), (∀ m ∈ (initPopulation g points k r).1, m ~ points) ∧
      (initPopulation g points k r).1.length = k := by
  intro k
  induction k with
  | zero => intro r; exact ⟨by simp [initPopulation], by simp [initPopulation]⟩
  | succ n ih =>
    intro r
    constructor
    · intro m hm
      simp only [initPopulation, List.mem_cons] at hm
      rcases hm with rfl | hm
      · exact shuffleArray_perm g points r
      · exact (ih ((shuffleArray g points r).2)).1 m hm
    · simp [initPopulation, (ih ((shuffleArray g points r).2)).2]

theorem gaChild_perm (g : ℕ → ℚ) (pop : List (List DPoint)) (fitness : List ℚ)
    (r : ℕ) (points : List DPoint) (hg : ValidDraws g)
    (hpop : ∀ m ∈ pop, m ~ points) (hne : pop ≠ []) (hptsne : points ≠ [])
    (hnd : (points.map DPoint.orderId).Nodup) :
    (gaChild g pop fitness r).1 ~ points := by
  have hp1 : (tournamentSelection g pop fitness r).1 ~ points :=
    hpop _ (tournamentSelection_mem g pop fitness r hg hne)
  have hp2 : (tournamentSelection g pop fitness (r + 3)).1 ~ points :=
    hpop _ (tournamentSelection_mem g pop fitness (r + 3) hg hne)
  have hlen0 : 0 < (tournamentSelection g pop fitness r).1.length := by
    rw [hp1.length_eq]
    exact List.length_pos.mpr hptsne
  have hstart := randFloor_lt g (r + 6) (tournamentSelection g pop fitness r).1.length
    hg hlen0
  have hrem : 0 < (tournamentSelection g pop fitness r).1.length -
      randFloor g (r + 6) (tournamentSelection g pop fitness r).1.length := by
    omega
  have hend := randFloor_lt g (r + 7) ((tournamentSelection g pop fitness r).1.length -
    randFloor g (r + 6) (tournamentSelection g pop fitness r).1.length) hg hrem
  have hse : randFloor g (r + 6) (tournamentSelection g pop fitness r).1.length ≤
      randFloor g (r + 7) ((tournamentSelection g pop fitness r).1.length -
        randFloor g (r + 6) (tournamentSelection g pop fitness r).1.length) +
      randFloor g (r + 6) (tournamentSelection g pop fitness r).1.length :=
    Nat.le_add_left _ _
  have hel : randFloor g (r + 7) ((tournamentSelection g pop fitness r).1.length -
        randFloor g (r + 6) (tournamentSelection g pop fitness r).1.length) +
      randFloor g (r + 6) (tournamentSelection g pop fitness r).1.length <
      (tournamentSelection g pop fitness r).1.length := by
    omega
  have hchild := orderCrossover_perm points (tournamentSelection g pop fitness r).1
    (tournamentSelection g pop fitness (r + 3)).1
    (randFloor g (r + 6) (tournamentSelection g pop fitness r).1.length)
    (randFloor g (r + 7) ((tournamentSelection g pop fitness r).1.length -
      randFloor g (r + 6) (tournamentSelection g pop fitness r).1.length) +
      randFloor g (r + 6) (tournamentSelection g pop fitness r).1.length)
    hp1 hp2 hnd hse hel
  unfold gaChild
  dsimp only
  split
  · exact (swapL_perm _ _ _).trans hchild
  · exact hchild

theorem buildPop_spec (g : ℕ → ℚ) (pop : List (List DPoint)) (fitness : List ℚ)
    (points : List DPoint) (hg : ValidDraws g) (hpop : ∀ m ∈ pop, m ~ points)
    (hne : pop ≠ []) (hptsne : points ≠ [])
    (hnd : (points.map DPoint.orderId).Nodup) :
    ∀ (k r : ℕ), (∀ m ∈ (buildPop g pop fitness k r).1, m ~ points) ∧
      (buildPop g pop fitness k r).1.length = k := by
  intro k
  induction k with
  | zero => intro r; exact ⟨by simp [buildPop], by simp [buildPop]⟩
  | succ n ih =>
    intro r
    constructor
    · intro m hm
      simp only [buildPop, List.mem_cons] at hm
      rcases hm with rfl | hm
      · exact gaChild_perm g pop fitness r points hg hpop hne hptsne hnd
      · exact (ih ((gaChild g pop fitness r).2)).1 m hm
    · simp [buildPop, (ih ((gaChild g pop fitness r).2)).2]

/-- Invariant of the generational loop: every individual is a permutation of
the input points and the population keeps its size. -/
def GAInv (points : List DPoint) (popSize : ℕ) (s : List (List DPoint) × ℕ) : Prop :=
  (∀ m ∈ s.1, m ~ points) ∧ s.1.length = popSize

theorem gaGeneration_inv (d : Dist) (g : ℕ → ℚ) (startPoint : DPoint)
    (popSize : ℕ) (points : List DPoint) (hg : ValidDraws g) (hptsne : points ≠ [])
    (hnd : (points.map DPoint.orderId).Nodup) (hpos : 0 < popSize)
    (s : List (List DPoint) × ℕ) (h : GAInv points popSize s) :
    GAInv points popSize (gaGeneration d g startPoint popSize s) := by
  obtain ⟨hpop, hlen⟩ := h
  have hne : s.1 ≠ [] := by
    intro hnil
    rw [hnil] at hlen
    simp at hlen
    omega
  have := buildPop_spec g s.1 (gaFitness d startPoint s.1) points hg hpop hne hptsne
    hnd popSize s.2
  exact this

theorem geneticAlgorithmRoute_perm (d : Dist) (g : ℕ → ℚ) (points : List DPoint)
    (startPoint : DPoint) (maxGenerations r : ℕ) (hg : ValidDraws g)
    (hne : points ≠ []) (hnd : (points.map DPoint.orderId).Nodup) :
    ∃ mid, (geneticAlgorithmRoute d g points startPoint maxGenerations r).1 =
      startPoint :: (mid ++ [startPoint]) ∧ mid ~ points := by
  by_cases hsmall : points.length ≤ 3
  · refine ⟨nnLoopF d points.length startPoint points, ?_, ?_⟩
    · simp [geneticAlgorithmRoute, List.isEmpty_iff, hne, hsmall, nearestNeighborRoute]
    · exact nnLoopF_perm d points.length startPoint points le_rfl
  · have hpos : 0 < min 50 (points.length * 4) := by
      have : 0 < points.length := List.length_pos.mpr hne
      omega
    have hinit := initPopulation_spec g points (min 50 (points.length * 4)) r
    have hloop := iterN_invariant (P := GAInv points (min 50 (points.length * 4)))
      (gaGeneration d g startPoint (min 50 (points.length * 4)))
      (fun s hs => gaGeneration_inv d g startPoint (min 50 (points.length * 4)) points
        hg hne hnd hpos s hs)
      maxGenerations (initPopulation g points (min 50 (points.length * 4)) r)
      ⟨hinit.1, hinit.2⟩
    obtain ⟨hpopF, hlenF⟩ := hloop
    have hpopne : (iterN (gaGeneration d g startPoint (min 50 (points.length * 4)))
        maxGenerations (initPopulation g points (min 50 (points.length * 4)) r)).1 ≠ [] := by
      intro hnil
      rw [hnil] at hlenF
      simp at hlenF
      omega
    have hfitne : gaFitness d startPoint
        (iterN (gaGeneration d g startPoint (min 50 (points.length * 4)))
          maxGenerations (initPopulation g points (min 50 (points.length * 4)) r)).1 ≠ [] := by
      simp only [gaFitness, ne_eq, List.map_eq_nil_iff]
      exact hpopne
    have hidx : idxOfMax (gaFitness d startPoint
        (iterN (gaGeneration d g startPoint (min 50 (points.length * 4)))
          maxGenerations (initPopulation g points (min 50 (points.length * 4)) r)).1) <
        (iterN (gaGeneration d g startPoint (min 50 (points.length * 4)))
          maxGenerations (initPopulation g points (min 50 (points.length * 4)) r)).1.length := by
      have hmem := maxQ_mem _ hfitne
      have hlt := List.indexOf_lt_length.mpr hmem
      simpa [idxOfMax, gaFitness] using hlt
    refine ⟨(iterN (gaGeneration d g startPoint (min 50 (points.length * 4)))
        maxGenerations (initPopulation g points (min 50 (points.length * 4)) r)).1.getD
        (idxOfMax (gaFitness d startPoint
          (iterN (gaGeneration d g startPoint (min 50 (points.length * 4)))
            maxGenerations (initPopulation g points (min 50 (points.length * 4)) r)).1)) [],
      ?_, ?_⟩
    · simp [geneticAlgorithmRoute, List.isEmpty_iff, hne, hsmall]
    · exact hpopF _ (getD_mem_of_lt _ _ [] hidx)

/-- **C3.**  For every distance function, every `Math.exp` model, every valid
random-draw stream, every non-empty point set with pairwise-distinct order
ids and any iteration budgets: both the genetic-algorithm route and the
simulated-annealing route consist of the origin, a permutation of exactly
the input task points (none dropped, none duplicated), and the origin
again. -/
theorem gaSaRoutes_permutation (d : Dist) (expQ : ℚ → ℚ) (gGA gSA : ℕ → ℚ)
    (points : List DPoint) (startPoint : DPoint)
    (maxGenerations maxIterations rGA rSA : ℕ)
    (hg : ValidDraws gGA) (hne : points ≠ [])
    (hnd : (points.map DPoint.orderId).Nodup) :
    (∃ mid, (geneticAlgorithmRoute d gGA points startPoint maxGenerations rGA).1 =
        startPoint :: (mid ++ [startPoint]) ∧ mid ~ points) ∧
    (∃ mid2, (simulatedAnnealingRoute d expQ gSA points startPoint maxIterations rSA).1 =
        startPoint :: (mid2 ++ [startPoint]) ∧ mid2 ~ points) :=
  ⟨geneticAlgorithmRoute_perm d gGA points startPoint maxGenerations rGA hg hne hnd,
   simulatedAnnealingRoute_perm d expQ gSA points startPoint maxIterations rSA hne⟩

/-- Witness for C3: four points with distinct order ids (the GA runs its full
generational loop for `n = 4`), the all-zero draw stream, 100 generations
and 1000 annealing iterations. -/
theorem gaSaRoutes_permutation_witness :
    ValidDraws (fun _ => 0) ∧
    ([⟨0, 0, 1⟩, ⟨1, 0, 2⟩, ⟨0, 1, 3⟩, ⟨1, 1, 4⟩] : List DPoint) ≠ [] ∧
    (([⟨0, 0, 1⟩, ⟨1, 0, 2⟩, ⟨0, 1, 3⟩, ⟨1, 1, 4⟩] : List DPoint).map
      DPoint.orderId).Nodup ∧
    ((∃ mid, (geneticAlgorithmRoute calculateManhattanDistance (fun _ => 0)
        [⟨0, 0, 1⟩, ⟨1, 0, 2⟩, ⟨0, 1, 3⟩, ⟨1, 1, 4⟩] ⟨0, 0, 0⟩ 100 0).1 =
        ⟨0, 0, 0⟩ :: (mid ++ [⟨0, 0, 0⟩]) ∧
        mid ~ [⟨0, 0, 1⟩, ⟨1, 0, 2⟩, ⟨0, 1, 3⟩, ⟨1, 1, 4⟩]) ∧
    (∃ mid2, (simulatedAnnealingRoute calculateManhattanDistance (fun _ => 0)
        (fun _ => 0) [⟨0, 0, 1⟩, ⟨1, 0, 2⟩, ⟨0, 1, 3⟩, ⟨1, 1, 4⟩] ⟨0, 0, 0⟩ 1000 0).1 =
        ⟨0, 0, 0⟩ :: (mid2 ++ [⟨0, 0, 0⟩]) ∧
        mid2 ~ [⟨0, 0, 1⟩, ⟨1, 0, 2⟩, ⟨0, 1, 3⟩, ⟨1, 1, 4⟩])) :=
  ⟨fun _ => ⟨le_refl 0, by norm_num⟩, by decide, by decide,
   gaSaRoutes_permutation calculateManhattanDistance (fun _ => 0) (fun _ => 0)
     (fun _ => 0) [⟨0, 0, 1⟩, ⟨1, 0, 2⟩, ⟨0, 1, 3⟩, ⟨1, 1, 4⟩] ⟨0, 0, 0⟩ 100 1000 0 0
     (fun _ => ⟨le_refl 0, by norm_num⟩) (by decide) (by decide)⟩

/-! ### The optimization pass (`optimizeDeliveryRoutes`) -/

/-- `calculateRouteTime(route, drone)`: 0 when the route is absent
(`!route`) or empty; otherwise travel time of the interior
(`route.slice(1, -1)` measured from `route[0]`) at the drone speed, plus
3 minutes per delivery and 5 minutes loading. -/
def calculateRouteTime (d : Dist) (route : Option (List DPoint)) (drone : Drone) : ℚ :=
  match route with
  | none => 0
  | some rt =>
    if rt.isEmpty then 0
    else
      (calculateRouteDistance d ((rt.drop 1).dropLast) (rt.headD ⟨0, 0, 0⟩) /
          drone.speed) * 60 +
        ((rt.length : ℚ) - 2) * 3 + 5

/-- `calculateBatteryConsumption(route)`: 0 when the route is absent or
empty; otherwise interior route distance times 2 (% per km). -/
def calculateBatteryConsumption (d : Dist) (route : Option (List DPoint)) : ℚ :=
  match route with
  | none => 0
  | some rt =>
    if rt.isEmpty then 0
    else calculateRouteDistance d ((rt.drop 1).dropLast) (rt.headD ⟨0, 0, 0⟩) * 2

/-- `calculateOptimalRoute(orders, startLocation, algorithm)`: project the
orders to delivery points carrying their order id and dispatch on the
algorithm name (unknown names fall through to nearest neighbor). -/
def calculateOptimalRoute (d : Dist) (expQ : ℚ → ℚ) (g : ℕ → ℚ)
    (orders : List Order) (startLocation : DPoint) (algorithm : String) (r : ℕ) :
    List DPoint × ℕ :=
  let deliveryPoints := orders.map (fun o => (⟨o.location.x, o.location.y, o.id⟩ : DPoint))
  if algorithm = "nearest_neighbor" then
    (nearestNeighborRoute d deliveryPoints startLocation, r)
  else if algorithm = "genetic_algorithm" then
    geneticAlgorithmRoute d g deliveryPoints startLocation 100 r
  else if algorithm = "simulated_annealing" then
    simulatedAnnealingRoute d expQ g deliveryPoints startLocation 1000 r
  else (nearestNeighborRoute d deliveryPoints startLocation, r)

/-- The `assignments.map(...)` building the `optimizedRoutes` entries.  The
assignment object holds only `{drone, orders}`; `assignment.route` is
`undefined` when `estimatedTime`/`estimatedBattery` are computed, so both
estimators receive `none`. -/
def buildRoutes (d : Dist) (expQ : ℚ → ℚ) (g : ℕ → ℚ) (algorithm : String) :
    List Assignment → ℕ → List RouteEntry × ℕ
  | [], r => ([], r)
  | a :: rest, r =>
    ((⟨a.drone, a.orders,
        (calculateOptimalRoute d expQ g a.orders a.drone.location algorithm r).1,
        calculateRouteTime d none a.drone,
        calculateBatteryConsumption d none⟩ : RouteEntry) ::
      (buildRoutes d expQ g algorithm rest
        (calculateOptimalRoute d expQ g a.orders a.drone.location algorithm r).2).1,
     (buildRoutes d expQ g algorithm rest
       (calculateOptimalRoute d expQ g a.orders a.drone.location algorithm r).2).2)

/-- Result of `optimizeDeliveryRoutes`: the failure object
`{success: false, message}` or the success object
`{success: true, routes, stats, algorithm}`.  (The surrounding `try/catch`
would produce `{success: false, error}`, but no step of this pipeline can
throw — every embedded function is total.) -/
inductive ODRResult where
  | failure (message : String)
  | success (routes : List RouteEntry) (stats : OptimizationStats) (algorithm : String)
deriving Repr

/-- `optimizeDeliveryRoutes(drones, orders, {algorithm})`. -/
def optimizeDeliveryRoutes (d : Dist) (expQ : ℚ → ℚ) (g : ℕ → ℚ)
    (drones : List Drone) (orders : List Order) (algorithm : String) : ODRResult :=
  let availableDrones := drones.filter (fun dr => dr.status = "idle" ∧ 20 < dr.batteryLevel)
  let pendingOrders := orders.filter (fun o => o.status = "pending")
  if availableDrones.isEmpty ∨ pendingOrders.isEmpty then
    ODRResult.failure "Não há drones ou pedidos disponíveis"
  else
    let orderGroups := (groupOrdersForOptimalDelivery d pendingOrders availableDrones).1
    let assignments := (assignOrderGroupsToDrones d orderGroups availableDrones).1
    let optimizedRoutes := (buildRoutes d expQ g algorithm assignments 0).1
    ODRResult.success optimizedRoutes (calculateOptimizationStats optimizedRoutes)
      algorithm

/-- **C9.**  Whenever no unit is available (idle with battery above 20) or no
task is pending, `optimizeDeliveryRoutes` returns the explicit failure result
(success flag false plus a message, no routes at all), and — being a total
function — never raises an uncaught fault. -/
theorem optimizeDeliveryRoutes_no_eligible (d : Dist) (expQ : ℚ → ℚ) (g : ℕ → ℚ)
    (drones : List Drone) (orders : List Order) (algorithm : String)
    (h : drones.filter (fun dr => decide (dr.status = "idle" ∧ 20 < dr.batteryLevel)) = [] ∨
      orders.filter (fun o => decide (o.status = "pending")) = []) :
    optimizeDeliveryRoutes d expQ g drones orders algorithm =
      ODRResult.failure "Não há drones ou pedidos disponíveis" := by
  unfold optimizeDeliveryRoutes
  rw [if_pos]
  rcases h with h | h
  · left; simpa [List.isEmpty_iff] using h
  · right; simpa [List.isEmpty_iff] using h

/-- Witness for C9 at the repository's test scenario "no available drones":
every drone is `flying`, the order is pending. -/
theorem optimizeDeliveryRoutes_no_eligible_witness :
    (([⟨1, 10, 60, "flying", 100, ⟨0, 0, 0⟩⟩] : List Drone).filter
        (fun dr => decide (dr.status = "idle" ∧ 20 < dr.batteryLevel)) = [] ∨
      ([⟨1, 3, ⟨10, 15, 0⟩, "alta", 120, "pending"⟩] : List Order).filter
        (fun o => decide (o.status = "pending")) = []) ∧
    optimizeDeliveryRoutes calculateManhattanDistance (fun _ => 0) (fun _ => 0)
        [⟨1, 10, 60, "flying", 100, ⟨0, 0, 0⟩⟩]
        [⟨1, 3, ⟨10, 15, 0⟩, "alta", 120, "pending"⟩] "nearest_neighbor" =
      ODRResult.failure "Não há drones ou pedidos disponíveis" :=
  ⟨Or.inl (by decide), optimizeDeliveryRoutes_no_eligible calculateManhattanDistance
    (fun _ => 0) (fun _ => 0) [⟨1, 10, 60, "flying", 100, ⟨0, 0, 0⟩⟩]
    [⟨1, 3, ⟨10, 15, 0⟩, "alta", 120, "pending"⟩] "nearest_neighbor"
    (Or.inl (by decide))⟩

theorem buildRoutes_estimates_zero (d : Dist) (expQ : ℚ → ℚ) (g : ℕ → ℚ)
    (algorithm : String) :
    ∀ (as : List Assignment) (r : ℕ) (e : RouteEntry),
      e ∈ (buildRoutes d expQ g algorithm as r).1 →
      e.estimatedTime = 0 ∧ e.estimatedBattery = 0 := by
  intro as
  induction as with
  | nil => intro r e he; simp [buildRoutes] at he
  | cons a rest ih =>
    intro r e he
    simp only [buildRoutes, List.mem_cons] at he
    rcases he with rfl | he
    · exact ⟨rfl, rfl⟩
    · exact ih _ e he

/-- **C10.**  Every successful `optimizeDeliveryRoutes` call returns route
entries whose `estimatedTime` and `estimatedBattery` are 0, for any inputs,
distance function, algorithm and random stream: the estimators are invoked
on `assignment.route`, a field the assignment object does not have, and both
return 0 for an absent route. -/
theorem optimizeDeliveryRoutes_estimates_zero (d : Dist) (expQ : ℚ → ℚ)
    (g : ℕ → ℚ) (drones : List Drone) (orders : List Order) (algorithm : String)
    (h1 : drones.filter (fun dr => decide (dr.status = "idle" ∧ 20 < dr.batteryLevel)) ≠ [])
    (h2 : orders.filter (fun o => decide (o.status = "pending")) ≠ []) :
    ∃ routes stats,
      optimizeDeliveryRoutes d expQ g drones orders algorithm =
        ODRResult.success routes stats algorithm ∧
      ∀ e ∈ routes, e.estimatedTime = 0 ∧ e.estimatedBattery = 0 := by
  refine ⟨(buildRoutes d expQ g algorithm
      (assignOrderGroupsToDrones d
        (groupOrdersForOptimalDelivery d
          (orders.filter (fun o => decide (o.status = "pending")))
          (drones.filter (fun dr => decide (dr.status = "idle" ∧ 20 < dr.batteryLevel)))).1
        (drones.filter (fun dr => decide (dr.status = "idle" ∧ 20 < dr.batteryLevel)))).1
      0).1,
    calculateOptimizationStats (buildRoutes d expQ g algorithm
      (assignOrderGroupsToDrones d
        (groupOrdersForOptimalDelivery d
          (orders.filter (fun o => decide (o.status = "pending")))
          (drones.filter (fun dr => decide (dr.status = "idle" ∧ 20 < dr.batteryLevel)))).1
        (drones.filter (fun dr => decide (dr.status = "idle" ∧ 20 < dr.batteryLevel)))).1
      0).1, ?_, ?_⟩
  · unfold optimizeDeliveryRoutes
    rw [if_neg]
    push_neg
    constructor
    · simpa [List.isEmpty_iff] using h1
    · simpa [List.isEmpty_iff] using h2
  · intro e he
    exact buildRoutes_estimates_zero d expQ g algorithm _ 0 e he

/-- Witness for C10: one idle full-battery drone and one pending light order
under the default nearest-neighbor algorithm. -/
theorem optimizeDeliveryRoutes_estimates_zero_witness :
    (([⟨1, 10, 60, "idle", 100, ⟨0, 0, 0⟩⟩] : List Drone).filter
        (fun dr => decide (dr.status = "idle" ∧ 20 < dr.batteryLevel)) ≠ []) ∧
    (([⟨1, 3, ⟨10, 15, 0⟩, "alta", 120, "pending"⟩] : List Order).filter
        (fun o => decide (o.status = "pending")) ≠ []) ∧
    (∃ routes stats,
      optimizeDeliveryRoutes calculateManhattanDistance (fun _ => 0) (fun _ => 0)
          [⟨1, 10, 60, "idle", 100, ⟨0, 0, 0⟩⟩]
          [⟨1, 3, ⟨10, 15, 0⟩, "alta", 120, "pending"⟩] "nearest_neighbor" =
        ODRResult.success routes stats "nearest_neighbor" ∧
      ∀ e ∈ routes, e.estimatedTime = 0 ∧ e.estimatedBattery = 0) :=
  ⟨by decide, by decide, optimizeDeliveryRoutes_estimates_zero
    calculateManhattanDistance (fun _ => 0) (fun _ => 0)
    [⟨1, 10, 60, "idle", 100, ⟨0, 0, 0⟩⟩]
    [⟨1, 3, ⟨10, 15, 0⟩, "alta", 120, "pending"⟩] "nearest_neighbor"
    (by decide) (by decide)⟩

end DroneSim
